import Mathlib

/-!
# cyberspace-tui: screen state machine and Firestore document decoder

A shallow embedding of the Go sources (`api/posts.go`, `views/feed.go`,
`views/login.go`, `views/post_detail.go`, `views/helpers.go`, `main.go`).

Conventions of the embedding.

* Go `string` is a Lean `String`, indexed through its character list.  The
  only bytes the code compares against are ASCII (`'/'`, signs and decimal
  digits); such a byte never occurs inside a multi-byte UTF-8 sequence, so
  scanning the characters of a valid UTF-8 string (what `encoding/json`
  delivers) agrees with scanning its bytes.
* Go `int` is `Int`.  Cursor, offset and height arithmetic stays far inside
  the 64-bit range for every list that fits in memory; the only place where
  the range of `int` is visible is `strconv.Atoi`, which is modelled with its
  64-bit saturation.
* A Go pointer or interface that may be `nil` is an `Option`.
* A `tea.Cmd` is a closure; it is represented by a constructor of `Cmd`
  recording which closure it is and the values it captured.
* Library components whose internals are not part of the repository
  (`time.Parse`, the text-input editor, the spinner animation, the lipgloss
  renderer) are fields of `Lib`.
-/

namespace Cyberspace

/-! ## models/post.go -/

/-- Go `time.Time`, as an offset from the zero instant `time.Time{}`. -/
structure Time where
  sinceZero : Int
  deriving DecidableEq, Repr

/-- The zero value `time.Time{}`. -/
def Time.zero : Time := ⟨0⟩

/-- Go `error` values, identified by their message. -/
abbrev Error := String

/-- Record `models.Post`. -/
structure Post where
  ID : String
  AuthorID : String
  AuthorUsername : String
  Content : String
  CreatedAt : Time
  UpdatedAt : Time
  RepliesCount : Int
  BookmarksCount : Int
  Topics : List String
  Deleted : Bool
  deriving DecidableEq, Repr

/-- The zero value `models.Post{}`. -/
def Post.zero : Post :=
  { ID := "", AuthorID := "", AuthorUsername := "", Content := "",
    CreatedAt := Time.zero, UpdatedAt := Time.zero, RepliesCount := 0,
    BookmarksCount := 0, Topics := [], Deleted := false }

/-- Record `models.Reply`. -/
structure Reply where
  ID : String
  PostID : String
  AuthorID : String
  AuthorUsername : String
  Content : String
  CreatedAt : Time
  Deleted : Bool
  deriving DecidableEq, Repr

/-- The zero value `models.Reply{}`. -/
def Reply.zero : Reply :=
  { ID := "", PostID := "", AuthorID := "", AuthorUsername := "", Content := "",
    CreatedAt := Time.zero, Deleted := false }

/-! ## api/posts.go: wire structures -/

/-- Struct `firestoreValue`: one optional payload per tagged kind.  `arrayValue`
is the `Values` slice behind the `*firestoreArrayValue` pointer, `mapValue` the
`Fields` map behind `*firestoreMapValue` (a map is a key/value list read by
first match). -/
inductive FirestoreValue where
  | mk (stringValue : Option String) (integerValue : Option String)
      (booleanValue : Option Bool) (timestampValue : Option String)
      (arrayValue : Option (List FirestoreValue))
      (mapValue : Option (List (String × FirestoreValue)))

namespace FirestoreValue

/-- Field `StringValue`. -/
def StringValue : FirestoreValue → Option String
  | mk s _ _ _ _ _ => s

/-- Field `IntegerValue`. -/
def IntegerValue : FirestoreValue → Option String
  | mk _ i _ _ _ _ => i

/-- Field `BooleanValue`. -/
def BooleanValue : FirestoreValue → Option Bool
  | mk _ _ b _ _ _ => b

/-- Field `TimestampValue`. -/
def TimestampValue : FirestoreValue → Option String
  | mk _ _ _ t _ _ => t

/-- Field `ArrayValue` (with its `Values`). -/
def ArrayValue : FirestoreValue → Option (List FirestoreValue)
  | mk _ _ _ _ a _ => a

/-- A value carrying nothing: every pointer `nil`. -/
def empty : FirestoreValue := mk none none none none none none

/-- A value tagged `stringValue`. -/
def str (s : String) : FirestoreValue := mk (some s) none none none none none

/-- A value tagged `integerValue`. -/
def int (s : String) : FirestoreValue := mk none (some s) none none none none

/-- A value tagged `booleanValue`. -/
def bool (b : Bool) : FirestoreValue := mk none none (some b) none none none

/-- A value tagged `timestampValue`. -/
def ts (s : String) : FirestoreValue := mk none none none (some s) none none

/-- A value tagged `arrayValue`. -/
def arr (vs : List FirestoreValue) : FirestoreValue := mk none none none none (some vs) none

end FirestoreValue

/-- Struct `firestoreDocument`.  `Fields` is a Go map: `none` is the nil map
(an absent `fields` key), `some kvs` a map read by first match. -/
structure FirestoreDocument where
  Name : String
  Fields : Option (List (String × FirestoreValue))

/-- Struct `firestoreQueryResult`: `Document` is a pointer, possibly nil. -/
structure FirestoreQueryResult where
  Document : Option FirestoreDocument

/-- Map index `v, ok := fields[key]`: `none` when `ok` is false (also on the
nil map). -/
def lookupField (fields : Option (List (String × FirestoreValue))) (key : String) :
    Option FirestoreValue :=
  match fields with
  | none => none
  | some kvs => kvs.lookup key

/-! ## Library: `strconv.Atoi` on a 64-bit platform -/

/-- Largest `uint64`, `2^64 - 1`. -/
def maxUint64 : Nat := 18446744073709551615

/-- Largest `int` (64-bit), `2^63 - 1`. -/
def maxInt : Int := 9223372036854775807

/-- Smallest `int` (64-bit), `-2^63`. -/
def minInt : Int := -9223372036854775808

/-- The cutoff `1 << 63` of `ParseInt`. -/
def intCutoff : Nat := 9223372036854775808

/-- The `Err` of a `*strconv.NumError`. -/
inductive NumErr where
  | syntax_
  | range
  deriving DecidableEq, Repr

/-- Test `'0' <= c && c <= '9'` (code points 48 to 57). -/
def isDigit (c : Char) : Bool := decide (48 ≤ c.toNat) && decide (c.toNat ≤ 57)

/-- Digit value `c - '0'`. -/
def digitValue (c : Char) : Nat := c.toNat - 48

/-- The digit loop of `strconv.ParseUint(s, 10, 64)`: a character that is not a
decimal digit ends it with `(0, ErrSyntax)`; an accumulator that would leave
`uint64` ends it at once with `(maxUint64, ErrRange)`, before the remaining
characters are looked at. -/
def parseUintLoop : List Char → Nat → Nat × Option NumErr
  | [], n => (n, none)
  | c :: cs, n =>
    if isDigit c then
      let d := digitValue c
      if n ≥ maxUint64 / 10 + 1 then (maxUint64, some NumErr.range)
      else
        let n1 := n * 10 + d
        if n1 > maxUint64 then (maxUint64, some NumErr.range)
        else parseUintLoop cs n1
    else (0, some NumErr.syntax_)

/-- Function `strconv.ParseUint(s, 10, 64)`. -/
def parseUint (s : List Char) : Nat × Option NumErr :=
  match s with
  | [] => (0, some NumErr.syntax_)
  | _ => parseUintLoop s 0

/-- The part of `strconv.ParseInt(s, 10, 0)` after the sign is taken off, with
`IntSize = 64`: `ParseUint`, a syntax error gives 0, and a magnitude outside
`int64` saturates at the bound with `ErrRange`. -/
def parseIntAfterSign (neg : Bool) (body : List Char) : Int × Option NumErr :=
  let un := (parseUint body).1
  let err := (parseUint body).2
  if err = some NumErr.syntax_ then (0, err)
  else if neg = false ∧ un ≥ intCutoff then (maxInt, some NumErr.range)
  else if neg = true ∧ un > intCutoff then (minInt, some NumErr.range)
  else (if neg = true then -(un : Int) else (un : Int), none)

/-- Function `strconv.ParseInt(s, 10, 0)`: the empty string is a syntax error; a
leading `+` or `-` is taken off (`-` sets `neg`). -/
def parseInt (s : List Char) : Int × Option NumErr :=
  match s with
  | [] => (0, some NumErr.syntax_)
  | c :: cs =>
    if c = '+' then parseIntAfterSign false cs
    else if c = '-' then parseIntAfterSign true cs
    else parseIntAfterSign false (c :: cs)

/-- Function `strconv.Atoi`: the value and error of `ParseInt(s, 10, 0)` (its
fast path for short inputs computes the same pair). -/
def atoi (s : String) : Int × Option NumErr := parseInt s.data

/-! ## api/posts.go: decoders -/

/-- The identifier loop shared by `parsePost` and `parseReply`:
`for i := len(name) - 1; i >= 0; i-- { if name[i] == '/' { id = name[i+1:]; break } }`.
The argument `k` is `i + 1`; `none` means the loop ended without assigning. -/
def scanID (name : List Char) : Nat → Option (List Char)
  | 0 => none
  | i + 1 => if name[i]? = some '/' then some (name.drop (i + 1)) else scanID name i

/-- The record ID left by the identifier loop: the zero value `""` when the loop
assigns nothing. -/
def extractID (name : String) : String :=
  match scanID name.data name.data.length with
  | some id => String.mk id
  | none => ""

/-- The topics loop of `parsePost`:
`for _, tv := range values { if tv.StringValue != nil { topics = append(topics, *tv.StringValue) } }`. -/
def appendTopics (topics : List String) : List FirestoreValue → List String
  | [] => topics
  | tv :: rest =>
    match tv.StringValue with
    | some s => appendTopics (topics ++ [s]) rest
    | none => appendTopics topics rest

/-- Library `time.Parse(time.RFC3339Nano, s)` with the error dropped
(`t, _ := ...`): the zero instant on failure. -/
def parseTimeOrZero (timeParse : String → Option Time) (s : String) : Time :=
  match timeParse s with
  | some t => t
  | none => Time.zero

/-- The guarded assignment `if v, ok := fields[key]; ok && v.X != nil { ... *v.X ... }`:
`proj` reads the pointer `v.X`, `assign` is the body run on the pointed-to
value; without a value of that kind the record is left as it is. -/
def whenField {α β : Type} (fields : Option (List (String × FirestoreValue))) (key : String)
    (proj : FirestoreValue → Option α) (assign : α → β → β) (x : β) : β :=
  match (lookupField fields key).bind proj with
  | some a => assign a x
  | none => x

/-- Function `parsePost`; the second component is the returned `error`. -/
def parsePost (timeParse : String → Option Time) (doc : FirestoreDocument) :
    Post × Option Error :=
  let post := { Post.zero with ID := extractID doc.Name }
  let fields := doc.Fields
  let post := whenField fields "authorId" FirestoreValue.StringValue
    (fun s p => { p with AuthorID := s }) post
  let post := whenField fields "authorUsername" FirestoreValue.StringValue
    (fun s p => { p with AuthorUsername := s }) post
  let post := whenField fields "content" FirestoreValue.StringValue
    (fun s p => { p with Content := s }) post
  let post := whenField fields "createdAt" FirestoreValue.TimestampValue
    (fun s p => { p with CreatedAt := parseTimeOrZero timeParse s }) post
  let post := whenField fields "repliesCount" FirestoreValue.IntegerValue
    (fun s p => { p with RepliesCount := (atoi s).1 }) post
  let post := whenField fields "bookmarksCount" FirestoreValue.IntegerValue
    (fun s p => { p with BookmarksCount := (atoi s).1 }) post
  let post := whenField fields "topics" FirestoreValue.ArrayValue
    (fun vs p => { p with Topics := appendTopics p.Topics vs }) post
  let post := whenField fields "deleted" FirestoreValue.BooleanValue
    (fun b p => { p with Deleted := b }) post
  (post, none)

/-- Function `parseReply`; the second component is the returned `error`. -/
def parseReply (timeParse : String → Option Time) (doc : FirestoreDocument) :
    Reply × Option Error :=
  let reply := { Reply.zero with ID := extractID doc.Name }
  let fields := doc.Fields
  let reply := whenField fields "postId" FirestoreValue.StringValue
    (fun s r => { r with PostID := s }) reply
  let reply := whenField fields "authorId" FirestoreValue.StringValue
    (fun s r => { r with AuthorID := s }) reply
  let reply := whenField fields "authorUsername" FirestoreValue.StringValue
    (fun s r => { r with AuthorUsername := s }) reply
  let reply := whenField fields "content" FirestoreValue.StringValue
    (fun s r => { r with Content := s }) reply
  let reply := whenField fields "createdAt" FirestoreValue.TimestampValue
    (fun s r => { r with CreatedAt := parseTimeOrZero timeParse s }) reply
  let reply := whenField fields "deleted" FirestoreValue.BooleanValue
    (fun b r => { r with Deleted := b }) reply
  (reply, none)

/-- The decode loop of `FetchPosts` over the unmarshalled `results`, with the
final `return posts, nil`. -/
def decodePosts (timeParse : String → Option Time) :
    List Post → List FirestoreQueryResult → List Post × Option Error
  | posts, [] => (posts, none)
  | posts, r :: rest =>
    match r.Document with
    | none => decodePosts timeParse posts rest
    | some doc =>
      match parsePost timeParse doc with
      | (post, none) => decodePosts timeParse (posts ++ [post]) rest
      | (_, some _) => decodePosts timeParse posts rest

/-- The decode loop of `FetchReplies` over the unmarshalled `results`, with the
final `return replies, nil`. -/
def decodeReplies (timeParse : String → Option Time) :
    List Reply → List FirestoreQueryResult → List Reply × Option Error
  | replies, [] => (replies, none)
  | replies, r :: rest =>
    match r.Document with
    | none => decodeReplies timeParse replies rest
    | some doc =>
      match parseReply timeParse doc with
      | (reply, none) => decodeReplies timeParse (replies ++ [reply]) rest
      | (_, some _) => decodeReplies timeParse replies rest

/-! ## Library components of the screens -/

/-- Library `textinput.Model` (bubbles): the buffer, the focus flag and the
settings `NewLoginModel` assigns. -/
structure TextInput where
  value : String
  focus : Bool
  Placeholder : String
  EchoPassword : Bool
  CharLimit : Int
  Width : Int
  deriving DecidableEq, Repr

/-- Library `textinput.New()` as far as the fields above go. -/
def TextInput.new : TextInput :=
  { value := "", focus := false, Placeholder := "", EchoPassword := false,
    CharLimit := 0, Width := 0 }

/-- The zero value `textinput.Model{}`. -/
def TextInput.zero : TextInput := TextInput.new

/-- Method `Value()`. -/
def TextInput.Value (t : TextInput) : String := t.value

/-- Method `Blur()`. -/
def TextInput.Blur (t : TextInput) : TextInput := { t with focus := false }

/-- Library `spinner.Model`: its animation frame. -/
structure Spinner where
  frame : Nat
  deriving DecidableEq, Repr

/-- Function `NewSpinner` (views/helpers.go). -/
def NewSpinner : Spinner := ⟨0⟩

/-- Struct `api.FirestoreClient`. -/
structure FirestoreClient where
  ProjectID : String
  IDToken : String
  deriving DecidableEq, Repr

/-- Function `api.NewFirestoreClient`. -/
def NewFirestoreClient (projectID idToken : String) : FirestoreClient :=
  { ProjectID := projectID, IDToken := idToken }

/-- Struct `Config` (config.go). -/
structure Config where
  IDToken : String
  RefreshToken : String
  UserID : String
  Email : String
  Username : String
  deriving DecidableEq, Repr

/-! ## Messages and commands -/

/-- The `tea.Msg` values the screens distinguish.  A `tea.KeyMsg` is given by
its `String()`. -/
inductive Msg where
  | key (s : String)
  | windowSize (Width Height : Int)
  | spinnerTick
  | loginSuccess (IDToken RefreshToken UserID Email : String)
  | loginError (Err : Option Error)
  | postsLoaded (Posts : List Post)
  | postsError (Err : Option Error)
  | openPost (Post : Post)
  | postDetailLoaded (Post : Post) (Replies : List Reply)
  | postDetailError (Err : Option Error)
  | backToFeed
  | other (tag : Nat)
  deriving DecidableEq, Repr

/-- The `tea.Cmd` values the screens return: `none` is the nil command, the
others name the closure and carry what it captured.  `batch a b` is
`tea.Batch(a, b)`; `lib` is a command produced inside a library component. -/
inductive Cmd where
  | none
  | quit
  | blink
  | spinnerTick
  | batch (a b : Cmd)
  | attemptLogin (email password apiKey : String)
  | fetchPosts (client : Option FirestoreClient)
  | openPost (posts : List Post) (cursor : Int)
  | backToFeed
  | fetchPostAndReplies (post : Post) (postID : String) (client : Option FirestoreClient)
  | lib (tag : Nat)
  deriving DecidableEq, Repr

/-- Method `Focus()` of the text input: sets the flag and returns the cursor
blink command. -/
def TextInput.Focus (t : TextInput) : TextInput × Cmd := ({ t with focus := true }, Cmd.blink)

/-! ## Screen models -/

/-- Struct `views.LoginModel`. -/
structure LoginModel where
  emailInput : TextInput
  passwordInput : TextInput
  focusIndex : Int
  loading : Bool
  err : Option Error
  apiKey : String
  width : Int
  height : Int
  deriving DecidableEq, Repr

/-- Struct `views.FeedModel`. -/
structure FeedModel where
  posts : List Post
  cursor : Int
  offset : Int
  loading : Bool
  spinner : Spinner
  err : Option Error
  client : Option FirestoreClient
  width : Int
  height : Int
  deriving DecidableEq, Repr

/-- Struct `views.PostDetailModel`. -/
structure PostDetailModel where
  post : Post
  replies : List Reply
  scroll : Int
  loading : Bool
  spinner : Spinner
  err : Option Error
  client : Option FirestoreClient
  postID : String
  width : Int
  height : Int
  deriving DecidableEq, Repr

/-- A command built inside a library component: `none` is the nil command,
`some tag` one of the library's own closures. -/
def Cmd.ofLib : Option Nat → Cmd
  | Option.none => Cmd.none
  | Option.some tag => Cmd.lib tag

/-- The library behaviour the screens are parametric in.

* `timeParse` is `time.Parse(time.RFC3339Nano, ·)`, `none` on error.
* `textinputEdit` is what a focused text input does with a message: the new
  buffer and the library command it returns.
* `spinnerUpdate` is `spinner.Model.Update`, with the library command it returns.
* `contentLines` is `len(strings.Split(m.buildContent(), "\n"))`, the number of
  lines lipgloss renders for a detail screen, as a function of what
  `buildContent` reads: the post, the replies, the loading flag, the spinner and
  the width. -/
structure Lib where
  timeParse : String → Option Time
  textinputEdit : TextInput → Msg → String × Option Nat
  spinnerUpdate : Spinner → Msg → Spinner × Option Nat
  contentLines : Post → List Reply → Bool → Spinner → Int → Nat

/-- Library `textinput.Model.Update`: an unfocused input ignores the message
(`if !m.focus { return m, nil }`); a focused one edits its buffer and keeps its
focus flag and settings. -/
def TextInput.Update (lib : Lib) (t : TextInput) (msg : Msg) : TextInput × Cmd :=
  if !t.focus then (t, Cmd.none)
  else ({ t with value := (lib.textinputEdit t msg).1 }, Cmd.ofLib (lib.textinputEdit t msg).2)

/-! ## views/helpers.go -/

/-- Function `Min`. -/
def Min (a b : Int) : Int := if a < b then a else b

/-- Function `Max`. -/
def Max (a b : Int) : Int := if a > b then a else b

/-- Function `Clamp`. -/
def Clamp (value min max : Int) : Int :=
  if value < min then min
  else if value > max then max
  else value

/-! ## views/login.go -/

/-- Function `NewLoginModel`. -/
def NewLoginModel (apiKey : String) : LoginModel :=
  let ei := { TextInput.new with Placeholder := "email@example.com" }
  let ei := (ei.Focus).1
  let ei := { ei with CharLimit := 64, Width := 30 }
  let pi := { TextInput.new with Placeholder := "password", EchoPassword := true }
  let pi := { pi with CharLimit := 64, Width := 30 }
  { emailInput := ei, passwordInput := pi, focusIndex := 0, loading := false,
    err := none, apiKey := apiKey, width := 0, height := 0 }

/-- The zero value `views.LoginModel{}`. -/
def LoginModel.zero : LoginModel :=
  { emailInput := TextInput.zero, passwordInput := TextInput.zero, focusIndex := 0,
    loading := false, err := none, apiKey := "", width := 0, height := 0 }

/-- Method `updateFocus` (pointer receiver): the updated model and the command. -/
def LoginModel.updateFocus (m : LoginModel) : LoginModel × Cmd :=
  if m.focusIndex = 0 then
    let m := { m with passwordInput := m.passwordInput.Blur }
    ({ m with emailInput := (m.emailInput.Focus).1 }, (m.emailInput.Focus).2)
  else
    let m := { m with emailInput := m.emailInput.Blur }
    ({ m with passwordInput := (m.passwordInput.Focus).1 }, (m.passwordInput.Focus).2)

/-- Method `attemptLogin`: the closure over the two buffers and the API key. -/
def LoginModel.attemptLogin (m : LoginModel) : Cmd :=
  Cmd.attemptLogin m.emailInput.Value m.passwordInput.Value m.apiKey

/-- The tail of `LoginModel.Update`, "Update the focused input". -/
def LoginModel.updateInput (lib : Lib) (m : LoginModel) (msg : Msg) : LoginModel × Cmd :=
  if m.focusIndex = 0 then
    ({ m with emailInput := (m.emailInput.Update lib msg).1 }, (m.emailInput.Update lib msg).2)
  else
    ({ m with passwordInput := (m.passwordInput.Update lib msg).1 },
      (m.passwordInput.Update lib msg).2)

/-- Method `LoginModel.Update`.  Go's `%` truncates, hence `Int.tmod`. -/
def LoginModel.Update (lib : Lib) (m : LoginModel) (msg : Msg) : LoginModel × Cmd :=
  match msg with
  | Msg.key s =>
    if m.loading then (m, Cmd.none)
    else if s = "ctrl+c" ∨ s = "esc" then (m, Cmd.quit)
    else if s = "tab" ∨ s = "down" then
      LoginModel.updateFocus { m with focusIndex := (m.focusIndex + 1).tmod 2 }
    else if s = "shift+tab" ∨ s = "up" then
      LoginModel.updateFocus { m with focusIndex := (m.focusIndex - 1 + 2).tmod 2 }
    else if s = "enter" then
      if m.focusIndex = 1 ∨ (m.emailInput.Value ≠ "" ∧ m.passwordInput.Value ≠ "") then
        let m := { m with loading := true, err := none }
        (m, m.attemptLogin)
      else if m.focusIndex = 0 then
        LoginModel.updateFocus { m with focusIndex := 1 }
      else LoginModel.updateInput lib m msg
    else LoginModel.updateInput lib m msg
  | Msg.windowSize w h =>
    LoginModel.updateInput lib { m with width := w, height := h } msg
  | Msg.loginSuccess _ _ _ _ => ({ m with loading := false }, Cmd.none)
  | Msg.loginError e => ({ m with loading := false, err := e }, Cmd.none)
  | _ => LoginModel.updateInput lib m msg

/-! ## views/feed.go -/

/-- Function `NewFeedModel`. -/
def NewFeedModel (projectID idToken : String) : FeedModel :=
  { posts := [], cursor := 0, offset := 0, loading := true, spinner := NewSpinner,
    err := none, client := some (NewFirestoreClient projectID idToken),
    width := 0, height := 0 }

/-- The zero value `views.FeedModel{}`. -/
def FeedModel.zero : FeedModel :=
  { posts := [], cursor := 0, offset := 0, loading := false, spinner := ⟨0⟩,
    err := none, client := none, width := 0, height := 0 }

/-- Method `fetchPosts`: the closure over the client. -/
def FeedModel.fetchPosts (m : FeedModel) : Cmd := Cmd.fetchPosts m.client

/-- Method `FeedModel.Init`. -/
def FeedModel.Init (m : FeedModel) : Cmd := Cmd.batch Cmd.spinnerTick m.fetchPosts

/-- Method `visiblePostCount`; Go's `/` truncates, hence `Int.tdiv`. -/
def FeedModel.visiblePostCount (m : FeedModel) : Int :=
  let visibleHeight := m.height - 4
  let postHeight := 5
  let count := visibleHeight.tdiv postHeight
  if count < 1 then 1 else count

/-- Method `adjustScroll` (pointer receiver). -/
def FeedModel.adjustScroll (m : FeedModel) : FeedModel :=
  let visiblePosts := m.visiblePostCount
  let m := if m.cursor ≥ m.offset + visiblePosts then
      { m with offset := m.cursor - visiblePosts + 1 } else m
  if m.cursor < m.offset then { m with offset := m.cursor } else m

/-- Method `FeedModel.Update`. -/
def FeedModel.Update (lib : Lib) (m : FeedModel) (msg : Msg) : FeedModel × Cmd :=
  match msg with
  | Msg.key s =>
    if m.loading then (m, Cmd.none)
    else if s = "ctrl+c" ∨ s = "q" then (m, Cmd.quit)
    else if s = "j" ∨ s = "down" then
      if m.cursor < (m.posts.length : Int) - 1 then
        (FeedModel.adjustScroll { m with cursor := m.cursor + 1 }, Cmd.none)
      else (m, Cmd.none)
    else if s = "k" ∨ s = "up" then
      if m.cursor > 0 then
        (FeedModel.adjustScroll { m with cursor := m.cursor - 1 }, Cmd.none)
      else (m, Cmd.none)
    else if s = "g" then ({ m with cursor := 0, offset := 0 }, Cmd.none)
    else if s = "G" then
      (FeedModel.adjustScroll { m with cursor := (m.posts.length : Int) - 1 }, Cmd.none)
    else if s = "r" then
      let m := { m with loading := true, err := none }
      (m, Cmd.batch Cmd.spinnerTick m.fetchPosts)
    else if s = "enter" then
      if m.posts.length > 0 ∧ m.cursor < (m.posts.length : Int) then
        (m, Cmd.openPost m.posts m.cursor)
      else (m, Cmd.none)
    else (m, Cmd.none)
  | Msg.windowSize w h =>
    (FeedModel.adjustScroll { m with width := w, height := h }, Cmd.none)
  | Msg.spinnerTick =>
    ({ m with spinner := (lib.spinnerUpdate m.spinner msg).1 },
      Cmd.ofLib (lib.spinnerUpdate m.spinner msg).2)
  | Msg.postsLoaded posts =>
    ({ m with loading := false, posts := posts, cursor := 0, offset := 0 }, Cmd.none)
  | Msg.postsError e => ({ m with loading := false, err := e }, Cmd.none)
  | _ => (m, Cmd.none)

/-! ## views/post_detail.go -/

/-- Function `NewPostDetailModel`. -/
def NewPostDetailModel (projectID idToken postID : String) : PostDetailModel :=
  { post := Post.zero, replies := [], scroll := 0, loading := true, spinner := NewSpinner,
    err := none, client := some (NewFirestoreClient projectID idToken), postID := postID,
    width := 0, height := 0 }

/-- Function `NewPostDetailModelWithPost`. -/
def NewPostDetailModelWithPost (projectID idToken : String) (post : Post) : PostDetailModel :=
  { post := post, replies := [], scroll := 0, loading := true, spinner := NewSpinner,
    err := none, client := some (NewFirestoreClient projectID idToken), postID := post.ID,
    width := 0, height := 0 }

/-- The zero value `views.PostDetailModel{}`. -/
def PostDetailModel.zero : PostDetailModel :=
  { post := Post.zero, replies := [], scroll := 0, loading := false, spinner := ⟨0⟩,
    err := none, client := none, postID := "", width := 0, height := 0 }

/-- Method `fetchPostAndReplies`: the closure over the model. -/
def PostDetailModel.fetchPostAndReplies (m : PostDetailModel) : Cmd :=
  Cmd.fetchPostAndReplies m.post m.postID m.client

/-- Method `PostDetailModel.Init`. -/
def PostDetailModel.Init (m : PostDetailModel) : Cmd :=
  Cmd.batch Cmd.spinnerTick m.fetchPostAndReplies

/-- Method `maxScroll`. -/
def PostDetailModel.maxScroll (lib : Lib) (m : PostDetailModel) : Int :=
  let lines : Int := (lib.contentLines m.post m.replies m.loading m.spinner m.width : Int)
  let visibleLines := m.height - 4
  let maxScroll := lines - visibleLines
  if maxScroll < 0 then 0 else maxScroll

/-- Method `clampScroll` (pointer receiver). -/
def PostDetailModel.clampScroll (lib : Lib) (m : PostDetailModel) : PostDetailModel :=
  { m with scroll := Clamp m.scroll 0 (m.maxScroll lib) }

/-- Method `PostDetailModel.Update`. -/
def PostDetailModel.Update (lib : Lib) (m : PostDetailModel) (msg : Msg) :
    PostDetailModel × Cmd :=
  match msg with
  | Msg.key s =>
    if s = "ctrl+c" ∨ s = "q" then (m, Cmd.quit)
    else if s = "esc" ∨ s = "b" ∨ s = "backspace" then (m, Cmd.backToFeed)
    else if s = "j" ∨ s = "down" then
      (PostDetailModel.clampScroll lib { m with scroll := m.scroll + 1 }, Cmd.none)
    else if s = "k" ∨ s = "up" then
      (PostDetailModel.clampScroll lib { m with scroll := m.scroll - 1 }, Cmd.none)
    else if s = "g" then ({ m with scroll := 0 }, Cmd.none)
    else if s = "G" then ({ m with scroll := m.maxScroll lib }, Cmd.none)
    else if s = "r" then
      let m := { m with loading := true, err := none }
      (m, Cmd.batch Cmd.spinnerTick m.fetchPostAndReplies)
    else (m, Cmd.none)
  | Msg.windowSize w h =>
    (PostDetailModel.clampScroll lib { m with width := w, height := h }, Cmd.none)
  | Msg.spinnerTick =>
    ({ m with spinner := (lib.spinnerUpdate m.spinner msg).1 },
      Cmd.ofLib (lib.spinnerUpdate m.spinner msg).2)
  | Msg.postDetailLoaded post replies =>
    ({ m with loading := false, post := post, replies := replies }, Cmd.none)
  | Msg.postDetailError e => ({ m with loading := false, err := e }, Cmd.none)
  | _ => (m, Cmd.none)

/-- The document store as the fetch closures see it: methods `FetchPost` and
`FetchReplies` of the client, each returning a value or an error. -/
structure Store where
  FetchPost : FirestoreClient → String → Except Error Post
  FetchReplies : FirestoreClient → String → Except Error (List Reply)

/-- A request sent to the document store. -/
inductive StoreCall where
  | fetchPost (postID : String)
  | fetchReplies (postID : String)
  deriving DecidableEq, Repr

/-- Running the closure returned by `fetchPostAndReplies`: the message it
delivers and the store requests it made, in order.  `none` is the nil-pointer
panic of a model without client. -/
def runFetchPostAndReplies (store : Store) (post : Post) (postID : String)
    (client : Option FirestoreClient) : Option (Msg × List StoreCall) :=
  match client with
  | none => none
  | some c =>
    if post.ID = "" then
      match store.FetchPost c postID with
      | Except.error e => some (Msg.postDetailError (some e), [StoreCall.fetchPost postID])
      | Except.ok p =>
        match store.FetchReplies c postID with
        | Except.error e =>
          some (Msg.postDetailError (some e),
            [StoreCall.fetchPost postID, StoreCall.fetchReplies postID])
        | Except.ok replies =>
          some (Msg.postDetailLoaded p replies,
            [StoreCall.fetchPost postID, StoreCall.fetchReplies postID])
    else
      match store.FetchReplies c postID with
      | Except.error e => some (Msg.postDetailError (some e), [StoreCall.fetchReplies postID])
      | Except.ok replies =>
        some (Msg.postDetailLoaded post replies, [StoreCall.fetchReplies postID])

/-! ## main.go -/

/-- Type `AppState`. -/
inductive AppState where
  | StateLogin
  | StateFeed
  | StatePostDetail
  deriving DecidableEq, Repr

/-- Struct `Model` of main.go.  `config` is a pointer, possibly nil. -/
structure Model where
  state : AppState
  loginModel : LoginModel
  feedModel : FeedModel
  postDetailModel : PostDetailModel
  config : Option Config
  apiKey : String
  projectID : String
  width : Int
  height : Int
  deriving DecidableEq, Repr

/-- Function `initialModel`. -/
def initialModel (apiKey projectID : String) (config : Option Config) : Model :=
  let m : Model :=
    { state := AppState.StateLogin, loginModel := LoginModel.zero, feedModel := FeedModel.zero,
      postDetailModel := PostDetailModel.zero, config := config, apiKey := apiKey,
      projectID := projectID, width := 0, height := 0 }
  match config with
  | some cfg =>
    if cfg.IDToken ≠ "" then
      { m with state := AppState.StateFeed, feedModel := NewFeedModel projectID cfg.IDToken }
    else { m with state := AppState.StateLogin, loginModel := NewLoginModel apiKey }
  | none => { m with state := AppState.StateLogin, loginModel := NewLoginModel apiKey }

/-- The second `switch` of `Model.Update`, on `m.state`.  `none` is the
nil-pointer panic of reading `m.config.IDToken` through a nil `config`.  The
file write of `SaveConfig` leaves no trace in the model. -/
def Model.dispatch (lib : Lib) (m : Model) (msg : Msg) : Option (Model × Cmd) :=
  match m.state with
  | AppState.StateLogin =>
    let r := m.loginModel.Update lib msg
    let m := { m with loginModel := r.1 }
    let cmd := r.2
    match msg with
    | Msg.loginSuccess idToken refreshToken userID email =>
      let cfg : Config := { IDToken := idToken, RefreshToken := refreshToken,
                            UserID := userID, Email := email, Username := "" }
      let m := { m with config := some cfg }
      let m := { m with state := AppState.StateFeed }
      let m := { m with feedModel := NewFeedModel m.projectID cfg.IDToken }
      some (m, m.feedModel.Init)
    | _ => some (m, cmd)
  | AppState.StateFeed =>
    let r := m.feedModel.Update lib msg
    let m := { m with feedModel := r.1 }
    let cmd := r.2
    match msg with
    | Msg.openPost post =>
      match m.config with
      | none => none
      | some cfg =>
        let m := { m with state := AppState.StatePostDetail }
        let m := { m with postDetailModel := NewPostDetailModelWithPost m.projectID cfg.IDToken post }
        some (m, m.postDetailModel.Init)
    | _ => some (m, cmd)
  | AppState.StatePostDetail =>
    let r := m.postDetailModel.Update lib msg
    let m := { m with postDetailModel := r.1 }
    let cmd := r.2
    match msg with
    | Msg.backToFeed => some ({ m with state := AppState.StateFeed }, Cmd.none)
    | _ => some (m, cmd)

/-- Method `Model.Update`. -/
def Model.Update (lib : Lib) (m : Model) (msg : Msg) : Option (Model × Cmd) :=
  match msg with
  | Msg.key s =>
    if s = "ctrl+c" then some (m, Cmd.quit) else Model.dispatch lib m msg
  | Msg.windowSize w h => Model.dispatch lib { m with width := w, height := h } msg
  | _ => Model.dispatch lib m msg

/-! ## Runs of a screen -/

/-- The Feed screen after handling the messages `msgs` in order. -/
def FeedModel.run (lib : Lib) (m : FeedModel) (msgs : List Msg) : FeedModel :=
  msgs.foldl (fun st msg => (FeedModel.Update lib st msg).1) m

/-- The clamp invariant of the Feed screen for a list of `n` rows. -/
def FeedModel.Clamped (m : FeedModel) (n : Int) : Prop :=
  0 ≤ m.cursor ∧ m.cursor ≤ n - 1 ∧ 0 ≤ m.offset ∧ m.offset ≤ m.cursor ∧
    m.cursor ≤ m.offset + m.visiblePostCount - 1

/-- A library that does nothing: no timestamp parses, text inputs keep their
buffer, the spinner stands still, the detail screen renders one line. -/
def Lib.inert : Lib :=
  { timeParse := fun _ => none
    textinputEdit := fun t _ => (t.value, none)
    spinnerUpdate := fun sp _ => (sp, none)
    contentLines := fun _ _ _ _ _ => 1 }

/-- The Login screen after handling the messages `msgs` in order. -/
def LoginModel.run (lib : Lib) (m : LoginModel) (msgs : List Msg) : LoginModel :=
  msgs.foldl (fun st msg => (LoginModel.Update lib st msg).1) m

/-- The top-level Model after handling the messages `msgs` in order; `none` as
soon as one of them panics. -/
def Model.run (lib : Lib) (m : Model) : List Msg → Option Model
  | [] => some m
  | msg :: rest =>
    match Model.Update lib m msg with
    | none => none
    | some r => Model.run lib r.1 rest

/-- Running the closure returned for "enter" on the Feed screen,
`func() tea.Msg { return OpenPostMsg{Post: m.posts[m.cursor]} }`: `none` is the
index-out-of-range panic. -/
def runOpenPost (posts : List Post) (cursor : Int) : Option Msg :=
  if 0 ≤ cursor ∧ cursor < (posts.length : Int) then
    match posts[cursor.toNat]? with
    | some p => some (Msg.openPost p)
    | none => none
  else none

/-- The page capacity the specification derives from a viewport height:
`max(1, (height - 4) / 5)`. -/
def pageCapacity (height : Int) : Int := max 1 ((height - 4).tdiv 5)

/-- The saturation the specification calls `clamp(x, lo, hi)`. -/
def clampSpec (x lo hi : Int) : Int := max lo (min x hi)

/-! ## Decimal notation, for stating what `strconv.Atoi` computes -/

/-- Positional value of a run of decimal digits appended to the value `n`. -/
def digitsAcc (n : Nat) : List Char → Nat
  | [] => n
  | c :: cs => digitsAcc (n * 10 + digitValue c) cs

/-- Positional value of a run of decimal digits. -/
def digitsVal (ds : List Char) : Nat := digitsAcc 0 ds

/-- The integer a text denotes as a decimal integer: an optional sign followed
by one or more decimal digits; `none` for any other text. -/
def decimalValue : List Char → Option Int
  | [] => none
  | c :: cs =>
    if c = '-' then
      if cs ≠ [] ∧ cs.all isDigit = true then some (-(digitsVal cs : Int)) else none
    else if c = '+' then
      if cs ≠ [] ∧ cs.all isDigit = true then some (digitsVal cs : Int) else none
    else if (c :: cs).all isDigit = true then some (digitsVal (c :: cs) : Int) else none

/-- The text after an optional leading sign. -/
def unsignedBody : List Char → List Char
  | [] => []
  | c :: cs => if c = '+' ∨ c = '-' then cs else c :: cs

/-- The count field of a Post that `parsePost` fills from the document field
`key`: `RepliesCount` for "repliesCount", `BookmarksCount` otherwise. -/
def Post.count (key : String) (p : Post) : Int :=
  if key = "repliesCount" then p.RepliesCount else p.BookmarksCount

/-! # Theorems -/

/-! ## Identifier extraction -/

theorem scanID_skip (name : List Char) (n : Nat) :
    ∀ k, (∀ j, n ≤ j → j < n + k → name[j]? ≠ some '/') →
      scanID name (n + k) = scanID name n := by
  intro k
  induction k with
  | zero => intro _; rfl
  | succ k ih =>
    intro h
    have hk : name[n + k]? ≠ some '/' := h (n + k) (by omega) (by omega)
    have : scanID name (n + (k + 1)) = scanID name (n + k) := by
      show scanID name ((n + k) + 1) = _
      simp only [scanID, hk, if_false]
    rw [this]
    exact ih (fun j h1 h2 => h j h1 (by omega))

/-- The identifier loop on `pre ++ "/" ++ seg`, `seg` free of separators, stops
at that separator and yields `seg`. -/
theorem scanID_append (pre seg : List Char) (hseg : '/' ∉ seg) :
    scanID (pre ++ '/' :: seg) (pre ++ '/' :: seg).length = some seg := by
  have hlen : (pre ++ '/' :: seg).length = (pre.length + 1) + seg.length := by
    simp [List.length_append]; omega
  rw [hlen, scanID_skip]
  · have hget : (pre ++ '/' :: seg)[pre.length]? = some '/' := by
      rw [List.getElem?_append_right (le_refl _)]
      simp
    simp only [scanID, hget, if_true]
    simp
  · intro j h1 h2 hj
    have hj2 : (pre ++ '/' :: seg)[j]? = seg[j - (pre.length + 1)]? := by
      rw [List.getElem?_append_right (by omega)]
      have : j - pre.length = (j - (pre.length + 1)) + 1 := by omega
      rw [this, List.getElem?_cons_succ]
    rw [hj2] at hj
    exact hseg (List.getElem?_mem hj)

theorem scanID_none_of_not_mem (name : List Char) (h : '/' ∉ name) :
    ∀ k, scanID name k = none := by
  intro k
  induction k with
  | zero => rfl
  | succ k ih =>
    have hk : name[k]? ≠ some '/' := fun hk => h (List.getElem?_mem hk)
    simp only [scanID, hk, if_false]
    exact ih

/-- A list containing a separator splits at its last separator. -/
theorem split_at_last_separator (name : List Char) (h : '/' ∈ name) :
    ∃ pre seg, name = pre ++ '/' :: seg ∧ '/' ∉ seg := by
  induction name with
  | nil => cases h
  | cons c rest ih =>
    by_cases hr : '/' ∈ rest
    · obtain ⟨pre, seg, he, hs⟩ := ih hr
      exact ⟨c :: pre, seg, by rw [he]; rfl, hs⟩
    · have hc : '/' = c := by
        rcases List.mem_cons.mp h with h1 | h1
        · exact h1
        · exact absurd h1 hr
      exact ⟨[], rest, by rw [hc]; rfl, hr⟩

theorem extractID_append (name : String) (pre seg : List Char)
    (hname : name.data = pre ++ '/' :: seg) (hseg : '/' ∉ seg) :
    extractID name = String.mk seg := by
  unfold extractID
  rw [hname, scanID_append pre seg hseg]

theorem extractID_of_not_mem (name : String) (h : '/' ∉ name.data) : extractID name = "" := by
  unfold extractID
  rw [scanID_none_of_not_mem name.data h]

/-! ## Guarded assignments -/

theorem whenField_proj {α β γ : Type} (g : β → γ)
    (fields : Option (List (String × FirestoreValue))) (key : String)
    (proj : FirestoreValue → Option α) (assign : α → β → β) (x : β)
    (hg : ∀ a y, g (assign a y) = g y) : g (whenField fields key proj assign x) = g x := by
  unfold whenField
  split
  · exact hg _ _
  · rfl

theorem whenField_eq {α β : Type} (fields : Option (List (String × FirestoreValue)))
    (key : String) (proj : FirestoreValue → Option α) (assign : α → β → β) (x : β) :
    whenField fields key proj assign x =
      match (lookupField fields key).bind proj with
      | some a => assign a x
      | none => x := rfl

theorem whenField_absent {α β : Type} (fields : Option (List (String × FirestoreValue)))
    (key : String) (proj : FirestoreValue → Option α) (assign : α → β → β) (x : β)
    (h : fields = none ∨ fields = some []) : whenField fields key proj assign x = x := by
  rcases h with h | h <;> subst h <;> rfl

theorem parsePost_ID (tp : String → Option Time) (doc : FirestoreDocument) :
    (parsePost tp doc).1.ID = extractID doc.Name := by
  simp only [parsePost]
  iterate 8 rw [whenField_proj Post.ID]
  all_goals (intros; rfl)

theorem parseReply_ID (tp : String → Option Time) (doc : FirestoreDocument) :
    (parseReply tp doc).1.ID = extractID doc.Name := by
  simp only [parseReply]
  iterate 6 rw [whenField_proj Reply.ID]
  all_goals (intros; rfl)

theorem parsePost_err (tp : String → Option Time) (doc : FirestoreDocument) :
    (parsePost tp doc).2 = none := rfl

theorem parseReply_err (tp : String → Option Time) (doc : FirestoreDocument) :
    (parseReply tp doc).2 = none := rfl

theorem parsePost_Topics (tp : String → Option Time) (doc : FirestoreDocument) :
    (parsePost tp doc).1.Topics =
      match (lookupField doc.Fields "topics").bind FirestoreValue.ArrayValue with
      | some vs => appendTopics [] vs
      | none => [] := by
  simp only [parsePost]
  rw [whenField_proj Post.Topics]
  · rw [whenField_eq]
    cases (lookupField doc.Fields "topics").bind FirestoreValue.ArrayValue with
    | none =>
      simp only
      iterate 6 rw [whenField_proj Post.Topics]
      all_goals (intros; rfl)
    | some vs =>
      simp only
      iterate 6 rw [whenField_proj Post.Topics]
      all_goals (intros; rfl)
  · intros; rfl

theorem parsePost_RepliesCount (tp : String → Option Time) (doc : FirestoreDocument) :
    (parsePost tp doc).1.RepliesCount =
      match (lookupField doc.Fields "repliesCount").bind FirestoreValue.IntegerValue with
      | some s => (atoi s).1
      | none => 0 := by
  simp only [parsePost]
  iterate 3 rw [whenField_proj Post.RepliesCount]
  · rw [whenField_eq]
    cases (lookupField doc.Fields "repliesCount").bind FirestoreValue.IntegerValue with
    | none =>
      simp only
      iterate 4 rw [whenField_proj Post.RepliesCount]
      all_goals (intros; rfl)
    | some s => simp only
  all_goals (intros; rfl)

theorem parsePost_BookmarksCount (tp : String → Option Time) (doc : FirestoreDocument) :
    (parsePost tp doc).1.BookmarksCount =
      match (lookupField doc.Fields "bookmarksCount").bind FirestoreValue.IntegerValue with
      | some s => (atoi s).1
      | none => 0 := by
  simp only [parsePost]
  iterate 2 rw [whenField_proj Post.BookmarksCount]
  · rw [whenField_eq]
    cases (lookupField doc.Fields "bookmarksCount").bind FirestoreValue.IntegerValue with
    | none =>
      simp only
      iterate 5 rw [whenField_proj Post.BookmarksCount]
      all_goals (intros; rfl)
    | some s => simp only
  all_goals (intros; rfl)

theorem appendTopics_eq (vs : List FirestoreValue) :
    ∀ acc, appendTopics acc vs = acc ++ vs.filterMap FirestoreValue.StringValue := by
  induction vs with
  | nil => intro acc; simp [appendTopics]
  | cons tv rest ih =>
    intro acc
    cases h : tv.StringValue with
    | none => simp [appendTopics, h, ih, List.filterMap_cons]
    | some str => simp [appendTopics, h, ih, List.filterMap_cons]

theorem decodePosts_acc (tp : String → Option Time) (results : List FirestoreQueryResult) :
    ∀ acc, decodePosts tp acc results =
      (acc ++ results.filterMap (fun r => r.Document.map (fun d => (parsePost tp d).1)), none) := by
  induction results with
  | nil => intro acc; simp [decodePosts]
  | cons r rest ih =>
    intro acc
    cases h : r.Document with
    | none => simp [decodePosts, h, ih, List.filterMap_cons]
    | some doc =>
      have hp : parsePost tp doc = ((parsePost tp doc).1, none) := rfl
      unfold decodePosts
      simp only [h]
      rw [hp]
      simp only [ih, List.filterMap_cons, h, Option.map_some', List.append_assoc,
        List.singleton_append]

theorem decodeReplies_acc (tp : String → Option Time) (results : List FirestoreQueryResult) :
    ∀ acc, decodeReplies tp acc results =
      (acc ++ results.filterMap (fun r => r.Document.map (fun d => (parseReply tp d).1)),
        none) := by
  induction results with
  | nil => intro acc; simp [decodeReplies]
  | cons r rest ih =>
    intro acc
    cases h : r.Document with
    | none => simp [decodeReplies, h, ih, List.filterMap_cons]
    | some doc =>
      have hp : parseReply tp doc = ((parseReply tp doc).1, none) := rfl
      unfold decodeReplies
      simp only [h]
      rw [hp]
      simp only [ih, List.filterMap_cons, h, Option.map_some', List.append_assoc,
        List.singleton_append]

/-! ## `strconv.Atoi` -/


theorem digitsAcc_cons (n : Nat) (c : Char) (cs : List Char) :
    digitsAcc n (c :: cs) = digitsAcc (n * 10 + digitValue c) cs := rfl

theorem digitsAcc_mono (ds : List Char) : ∀ n, n ≤ digitsAcc n ds := by
  induction ds with
  | nil => intro n; exact le_refl _
  | cons c cs ih =>
    intro n
    have := ih (n * 10 + digitValue c)
    rw [digitsAcc_cons]
    omega

theorem parseUintLoop_digits (ds : List Char) :
    ∀ n rest, (∀ c ∈ ds, isDigit c = true) → digitsAcc n ds ≤ maxUint64 →
      parseUintLoop (ds ++ rest) n = parseUintLoop rest (digitsAcc n ds) := by
  induction ds with
  | nil => intro n rest _ _; rfl
  | cons c cs ih =>
    intro n rest hd hle
    have hc : isDigit c = true := hd c (List.mem_cons_self _ _)
    have hmono := digitsAcc_mono cs (n * 10 + digitValue c)
    rw [digitsAcc_cons] at hle
    have h1 : n * 10 + digitValue c ≤ maxUint64 := le_trans hmono hle
    have h2 : ¬ (n ≥ maxUint64 / 10 + 1) := by
      unfold maxUint64 at h1 ⊢; omega
    have h3 : ¬ (n * 10 + digitValue c > maxUint64) := by omega
    rw [digitsAcc_cons]
    simp only [List.cons_append, parseUintLoop, hc, if_true, h2, if_false, h3]
    exact ih _ rest (fun x hx => hd x (List.mem_cons_of_mem _ hx)) hle

theorem parseUintLoop_overflow (ds : List Char) :
    ∀ n rest, (∀ c ∈ ds, isDigit c = true) → maxUint64 < digitsAcc n ds → n ≤ maxUint64 →
      parseUintLoop (ds ++ rest) n = (maxUint64, some NumErr.range) := by
  induction ds with
  | nil =>
    intro n rest _ h1 h2
    have : digitsAcc n [] = n := rfl
    omega
  | cons c cs ih =>
    intro n rest hd hgt hn
    have hc : isDigit c = true := hd c (List.mem_cons_self _ _)
    rw [digitsAcc_cons] at hgt
    simp only [List.cons_append, parseUintLoop, hc, if_true]
    split
    · rfl
    · split
      · rfl
      · exact ih _ rest (fun x hx => hd x (List.mem_cons_of_mem _ hx)) hgt (by omega)

theorem parseUintLoop_nondigit (c : Char) (rest : List Char) (n : Nat) (hc : isDigit c = false) :
    parseUintLoop (c :: rest) n = (0, some NumErr.syntax_) := by
  simp [parseUintLoop, hc]

/-- Result of `ParseUint` on a text that starts with a digit run followed by a
non-digit, when the run does not overflow. -/
theorem parseUint_syntax (ds : List Char) (c : Char) (rest : List Char)
    (hd : ∀ x ∈ ds, isDigit x = true) (hc : isDigit c = false)
    (hle : digitsVal ds ≤ maxUint64) :
    parseUint (ds ++ c :: rest) = (0, some NumErr.syntax_) := by
  have hne : parseUint (ds ++ c :: rest) = parseUintLoop (ds ++ c :: rest) 0 := by
    cases ds <;> rfl
  rw [hne, parseUintLoop_digits ds 0 (c :: rest) hd hle, parseUintLoop_nondigit c rest _ hc]

theorem parseUint_digits (ds : List Char) (hne : ds ≠ [])
    (hd : ∀ x ∈ ds, isDigit x = true) (hle : digitsVal ds ≤ maxUint64) :
    parseUint ds = (digitsVal ds, none) := by
  have h0 : parseUint ds = parseUintLoop ds 0 := by
    cases ds with
    | nil => exact absurd rfl hne
    | cons _ _ => rfl
  have := parseUintLoop_digits ds 0 [] hd hle
  rw [List.append_nil] at this
  rw [h0, this]
  rfl

theorem parseUint_overflow (ds rest : List Char) (hd : ∀ x ∈ ds, isDigit x = true)
    (hgt : maxUint64 < digitsVal ds) :
    parseUint (ds ++ rest) = (maxUint64, some NumErr.range) := by
  have h0 : parseUint (ds ++ rest) = parseUintLoop (ds ++ rest) 0 := by
    cases ds with
    | nil =>
      have : digitsVal [] = 0 := rfl
      omega
    | cons _ _ => rfl
  rw [h0]
  exact parseUintLoop_overflow ds 0 rest hd hgt (Nat.zero_le _)

theorem parseIntAfterSign_empty (neg : Bool) :
    parseIntAfterSign neg [] = (0, some NumErr.syntax_) := by
  simp [parseIntAfterSign, parseUint]

theorem parseIntAfterSign_syntax (neg : Bool) (ds : List Char) (c : Char) (rest : List Char)
    (hd : ∀ x ∈ ds, isDigit x = true) (hc : isDigit c = false)
    (hle : digitsVal ds ≤ maxUint64) :
    parseIntAfterSign neg (ds ++ c :: rest) = (0, some NumErr.syntax_) := by
  simp [parseIntAfterSign, parseUint_syntax ds c rest hd hc hle]

theorem parseIntAfterSign_pos_ok (ds : List Char) (hne : ds ≠ [])
    (hd : ∀ x ∈ ds, isDigit x = true) (hlt : digitsVal ds < intCutoff) :
    parseIntAfterSign false ds = ((digitsVal ds : Int), none) := by
  have hle : digitsVal ds ≤ maxUint64 := by unfold intCutoff at hlt; unfold maxUint64; omega
  have h1 : ¬ (digitsVal ds ≥ intCutoff) := by omega
  simp [parseIntAfterSign, parseUint_digits ds hne hd hle, h1]

theorem parseIntAfterSign_neg_ok (ds : List Char) (hne : ds ≠ [])
    (hd : ∀ x ∈ ds, isDigit x = true) (hlt : digitsVal ds ≤ intCutoff) :
    parseIntAfterSign true ds = (-(digitsVal ds : Int), none) := by
  have hle : digitsVal ds ≤ maxUint64 := by unfold intCutoff at hlt; unfold maxUint64; omega
  have h1 : ¬ (digitsVal ds > intCutoff) := by omega
  simp [parseIntAfterSign, parseUint_digits ds hne hd hle, h1]

theorem parseIntAfterSign_pos_range (ds : List Char) (hne : ds ≠ [])
    (hd : ∀ x ∈ ds, isDigit x = true) (hge : intCutoff ≤ digitsVal ds) :
    parseIntAfterSign false ds = (maxInt, some NumErr.range) := by
  by_cases hle : digitsVal ds ≤ maxUint64
  · simp [parseIntAfterSign, parseUint_digits ds hne hd hle, hge]
  · have h := parseUint_overflow ds [] hd (by omega)
    rw [List.append_nil] at h
    have h2 : intCutoff ≤ maxUint64 := by unfold intCutoff maxUint64; omega
    simp [parseIntAfterSign, h, h2]

theorem parseIntAfterSign_neg_range (ds : List Char) (hne : ds ≠ [])
    (hd : ∀ x ∈ ds, isDigit x = true) (hgt : intCutoff < digitsVal ds) :
    parseIntAfterSign true ds = (minInt, some NumErr.range) := by
  by_cases hle : digitsVal ds ≤ maxUint64
  · simp [parseIntAfterSign, parseUint_digits ds hne hd hle, hgt]
  · have h := parseUint_overflow ds [] hd (by omega)
    rw [List.append_nil] at h
    have h2 : intCutoff < maxUint64 := by unfold intCutoff maxUint64; omega
    simp [parseIntAfterSign, h, h2]

theorem parseInt_cons (c : Char) (cs : List Char) :
    parseInt (c :: cs) = parseIntAfterSign (decide (c = '-')) (unsignedBody (c :: cs)) := by
  by_cases h1 : c = '+'
  · subst h1; simp [parseInt, unsignedBody]
  · by_cases h2 : c = '-'
    · subst h2; simp [parseInt, unsignedBody]
    · simp [parseInt, unsignedBody, h1, h2]

/-- What `ParseInt` returns on a text that denotes the decimal integer `n`. -/
theorem parseInt_of_decimalValue (s : List Char) (n : Int) (h : decimalValue s = some n) :
    (minInt ≤ n → n ≤ maxInt → parseInt s = (n, none)) ∧
    (maxInt < n → parseInt s = (maxInt, some NumErr.range)) ∧
    (n < minInt → parseInt s = (minInt, some NumErr.range)) := by
  cases s with
  | nil => simp [decimalValue] at h
  | cons c cs =>
    by_cases h1 : c = '-'
    · subst h1
      simp only [decimalValue, if_true] at h
      split at h
      · rename_i hc
        obtain ⟨hne, hall⟩ := hc
        have hd : ∀ x ∈ cs, isDigit x = true := List.all_eq_true.mp hall
        have hn : n = -(digitsVal cs : Int) := by simpa using h.symm
        have hp : parseInt ('-' :: cs) = parseIntAfterSign true cs := by
          simp [parseInt]
        rw [hp]
        refine ⟨?_, ?_, ?_⟩
        · intro hlo _
          rw [hn]
          apply parseIntAfterSign_neg_ok cs hne hd
          unfold minInt at hlo; unfold intCutoff; omega
        · intro hhi
          unfold maxInt at hhi; omega
        · intro hlo
          apply parseIntAfterSign_neg_range cs hne hd
          unfold minInt at hlo; unfold intCutoff; omega
      · cases h
    · by_cases h2 : c = '+'
      · subst h2
        simp only [decimalValue, h1, if_false, if_true] at h
        split at h
        · rename_i hc
          obtain ⟨hne, hall⟩ := hc
          have hd : ∀ x ∈ cs, isDigit x = true := List.all_eq_true.mp hall
          have hn : n = (digitsVal cs : Int) := by simpa using h.symm
          have hp : parseInt ('+' :: cs) = parseIntAfterSign false cs := by
            simp [parseInt]
          rw [hp]
          refine ⟨?_, ?_, ?_⟩
          · intro _ hhi
            rw [hn]
            apply parseIntAfterSign_pos_ok cs hne hd
            unfold maxInt at hhi; unfold intCutoff; omega
          · intro hhi
            apply parseIntAfterSign_pos_range cs hne hd
            unfold maxInt at hhi; unfold intCutoff; omega
          · intro hlo
            unfold minInt at hlo; omega
        · cases h
      · simp only [decimalValue, h1, h2, if_false] at h
        split at h
        · rename_i hall
          have hd : ∀ x ∈ c :: cs, isDigit x = true := List.all_eq_true.mp hall
          have hn : n = (digitsVal (c :: cs) : Int) := by simpa using h.symm
          have hp : parseInt (c :: cs) = parseIntAfterSign false (c :: cs) := by
            simp [parseInt, h1, h2]
          rw [hp]
          refine ⟨?_, ?_, ?_⟩
          · intro _ hhi
            rw [hn]
            apply parseIntAfterSign_pos_ok (c :: cs) (List.cons_ne_nil _ _) hd
            unfold maxInt at hhi; unfold intCutoff; omega
          · intro hhi
            apply parseIntAfterSign_pos_range (c :: cs) (List.cons_ne_nil _ _) hd
            unfold maxInt at hhi; unfold intCutoff; omega
          · intro hlo
            unfold minInt at hlo; omega
        · cases h

/-- The texts on which `ParseInt` reports a syntax error and returns 0. -/
theorem parseInt_syntax (s : List Char) :
    (unsignedBody s = [] → parseInt s = (0, some NumErr.syntax_)) ∧
    (∀ ds c rest, unsignedBody s = ds ++ c :: rest → (∀ x ∈ ds, isDigit x = true) →
      isDigit c = false → digitsVal ds ≤ maxUint64 → parseInt s = (0, some NumErr.syntax_)) := by
  cases s with
  | nil =>
    refine ⟨fun _ => rfl, ?_⟩
    intro ds c rest hb
    simp [unsignedBody] at hb
  | cons c0 cs =>
    rw [parseInt_cons]
    refine ⟨?_, ?_⟩
    · intro hb
      rw [hb]
      exact parseIntAfterSign_empty _
    · intro ds c rest hb hd hc hle
      rw [hb]
      exact parseIntAfterSign_syntax _ ds c rest hd hc hle

theorem Post.count_parsePost (tp : String → Option Time) (doc : FirestoreDocument)
    (key : String) (v : FirestoreValue) (s : String)
    (hkey : key = "repliesCount" ∨ key = "bookmarksCount")
    (hv : lookupField doc.Fields key = some v) (hi : v.IntegerValue = some s) :
    Post.count key (parsePost tp doc).1 = (atoi s).1 := by
  rcases hkey with rfl | rfl
  · simp only [Post.count, if_true]
    rw [parsePost_RepliesCount, hv]
    simp only [Option.some_bind, hi]
  · have hne : ¬ ("bookmarksCount" = "repliesCount") := by decide
    simp only [Post.count, hne, if_false]
    rw [parsePost_BookmarksCount, hv]
    simp only [Option.some_bind, hi]

/-! ## Feed navigation -/

theorem FeedModel.visiblePostCount_pos (m : FeedModel) : 1 ≤ m.visiblePostCount := by
  unfold FeedModel.visiblePostCount
  simp only
  split <;> omega

theorem FeedModel.visiblePostCount_congr (m m1 : FeedModel) (h : m1.height = m.height) :
    m1.visiblePostCount = m.visiblePostCount := by
  unfold FeedModel.visiblePostCount
  rw [h]

theorem FeedModel.adjustScroll_frame (m : FeedModel) :
    (m.adjustScroll).posts = m.posts ∧ (m.adjustScroll).cursor = m.cursor ∧
      (m.adjustScroll).loading = m.loading ∧ (m.adjustScroll).height = m.height ∧
      (m.adjustScroll).err = m.err ∧ (m.adjustScroll).width = m.width := by
  unfold FeedModel.adjustScroll
  simp only
  split <;> split <;> simp

theorem FeedModel.adjustScroll_window (m : FeedModel) (hc : 0 ≤ m.cursor) (ho : 0 ≤ m.offset) :
    0 ≤ (m.adjustScroll).offset ∧ (m.adjustScroll).offset ≤ m.cursor ∧
      m.cursor ≤ (m.adjustScroll).offset + m.visiblePostCount - 1 := by
  have hv := m.visiblePostCount_pos
  unfold FeedModel.adjustScroll
  simp only
  split <;> split <;> simp_all <;> omega

theorem FeedModel.adjustScroll_clamped (m : FeedModel) (n : Int) (hc : 0 ≤ m.cursor)
    (hn : m.cursor ≤ n - 1) (ho : 0 ≤ m.offset) : (m.adjustScroll).Clamped n := by
  have hf := m.adjustScroll_frame
  have hw := m.adjustScroll_window hc ho
  have hvc := FeedModel.visiblePostCount_congr m m.adjustScroll hf.2.2.2.1
  unfold FeedModel.Clamped
  rw [hf.2.1, hvc]
  omega

/-- One up/down key keeps the list, the loading flag and the height, and keeps
the clamp invariant. -/
theorem FeedModel.nav_step (lib : Lib) (m : FeedModel) (k : String)
    (hk : k = "j" ∨ k = "down" ∨ k = "k" ∨ k = "up")
    (hinv : m.Clamped m.posts.length) :
    (FeedModel.Update lib m (Msg.key k)).1.posts = m.posts ∧
      (FeedModel.Update lib m (Msg.key k)).1.loading = m.loading ∧
      (FeedModel.Update lib m (Msg.key k)).1.height = m.height ∧
      (FeedModel.Update lib m (Msg.key k)).1.Clamped m.posts.length := by
  obtain ⟨h1, h2, h3, h4, h5⟩ := hinv
  have stay : m.Clamped m.posts.length := ⟨h1, h2, h3, h4, h5⟩
  rcases hk with rfl | rfl | rfl | rfl
  all_goals
    simp only [FeedModel.Update]
    split
    · exact ⟨rfl, rfl, rfl, stay⟩
    · simp only [String.reduceEq, or_self, or_false, false_or, or_true, if_false, if_true]
      split
      · refine ⟨?_, ?_, ?_, ?_⟩
        · simp [FeedModel.adjustScroll_frame]
        · simp [FeedModel.adjustScroll_frame]
        · simp [FeedModel.adjustScroll_frame]
        · apply FeedModel.adjustScroll_clamped
          · simp only; omega
          · simp only; omega
          · simpa using h3
      · exact ⟨rfl, rfl, rfl, stay⟩

/-- Every run of up/down keys keeps the list, the loading flag and the height,
and keeps the clamp invariant. -/
theorem FeedModel.nav_run (lib : Lib) (keys : List String)
    (hkeys : ∀ k ∈ keys, k = "j" ∨ k = "down" ∨ k = "k" ∨ k = "up") :
    ∀ m : FeedModel, m.Clamped m.posts.length →
      (m.run lib (keys.map Msg.key)).posts = m.posts ∧
      (m.run lib (keys.map Msg.key)).loading = m.loading ∧
      (m.run lib (keys.map Msg.key)).height = m.height ∧
      (m.run lib (keys.map Msg.key)).Clamped m.posts.length := by
  induction keys with
  | nil => intro m hm; exact ⟨rfl, rfl, rfl, hm⟩
  | cons k ks ih =>
    intro m hm
    have hstep := FeedModel.nav_step lib m k (hkeys k (List.mem_cons_self _ _)) hm
    obtain ⟨hp, hl, hh, hc⟩ := hstep
    have hrec := ih (fun x hx => hkeys x (List.mem_cons_of_mem _ hx))
      (FeedModel.Update lib m (Msg.key k)).1 (by rw [hp]; exact hc)
    simp only [FeedModel.run, List.map_cons, List.foldl_cons] at hrec ⊢
    rw [hp, hl, hh] at hrec
    exact hrec

/-- C1: from the Feed state produced by a PostsLoadedMsg with N >= 1 posts, for
any viewport height, every finite run of up/down keys ("j", "down", "k", "up")
leaves the N posts in place with 0 <= cursor <= N - 1 and
0 <= offset <= cursor <= offset + visiblePostCount() - 1. -/
theorem feed_updown_keeps_clamp (lib : Lib) (m0 : FeedModel) (posts : List Post)
    (keys : List String) (hN : 1 ≤ posts.length)
    (hkeys : ∀ k ∈ keys, k = "j" ∨ k = "down" ∨ k = "k" ∨ k = "up") :
    (FeedModel.Update lib m0 (Msg.postsLoaded posts)).1.cursor = 0 ∧
    (FeedModel.Update lib m0 (Msg.postsLoaded posts)).1.offset = 0 ∧
    (FeedModel.Update lib m0 (Msg.postsLoaded posts)).1.loading = false ∧
    (((FeedModel.Update lib m0 (Msg.postsLoaded posts)).1.run lib (keys.map Msg.key)).posts
        = posts) ∧
    0 ≤ ((FeedModel.Update lib m0 (Msg.postsLoaded posts)).1.run lib (keys.map Msg.key)).cursor ∧
    ((FeedModel.Update lib m0 (Msg.postsLoaded posts)).1.run lib (keys.map Msg.key)).cursor
        ≤ (posts.length : Int) - 1 ∧
    0 ≤ ((FeedModel.Update lib m0 (Msg.postsLoaded posts)).1.run lib (keys.map Msg.key)).offset ∧
    ((FeedModel.Update lib m0 (Msg.postsLoaded posts)).1.run lib (keys.map Msg.key)).offset
        ≤ ((FeedModel.Update lib m0 (Msg.postsLoaded posts)).1.run lib (keys.map Msg.key)).cursor ∧
    ((FeedModel.Update lib m0 (Msg.postsLoaded posts)).1.run lib (keys.map Msg.key)).cursor
        ≤ ((FeedModel.Update lib m0 (Msg.postsLoaded posts)).1.run lib (keys.map Msg.key)).offset
          + ((FeedModel.Update lib m0 (Msg.postsLoaded posts)).1.run lib
              (keys.map Msg.key)).visiblePostCount - 1 := by
  have hs : (FeedModel.Update lib m0 (Msg.postsLoaded posts)).1 =
      { m0 with loading := false, posts := posts, cursor := 0, offset := 0 } := rfl
  rw [hs]
  have hv := FeedModel.visiblePostCount_pos
    { m0 with loading := false, posts := posts, cursor := 0, offset := 0 }
  have h0 : FeedModel.Clamped
      { m0 with loading := false, posts := posts, cursor := 0, offset := 0 }
      (posts.length : Int) := by
    refine ⟨le_refl _, ?_, le_refl _, le_refl _, ?_⟩
    · simp only; omega
    · simp only at hv ⊢; omega
  obtain ⟨hp, _, _, hc⟩ := FeedModel.nav_run lib keys hkeys _ h0
  obtain ⟨c1, c2, c3, c4, c5⟩ := hc
  exact ⟨rfl, rfl, rfl, hp, c1, c2, c3, c4, c5⟩

/-- Three posts on a 14-row terminal (two rows per page), keys j, j, j, k: the
cursor ends on row 1 with the window starting at row 1. -/
theorem feed_updown_keeps_clamp_witness :
    1 ≤ [Post.zero, Post.zero, Post.zero].length ∧
    (∀ k ∈ ["j", "j", "j", "k"], k = "j" ∨ k = "down" ∨ k = "k" ∨ k = "up") ∧
    ((FeedModel.Update Lib.inert { FeedModel.zero with height := 14 }
          (Msg.postsLoaded [Post.zero, Post.zero, Post.zero])).1.run Lib.inert
        (["j", "j", "j", "k"].map Msg.key)).cursor
      ≤ (([Post.zero, Post.zero, Post.zero].length : Nat) : Int) - 1 ∧
    0 ≤ ((FeedModel.Update Lib.inert { FeedModel.zero with height := 14 }
          (Msg.postsLoaded [Post.zero, Post.zero, Post.zero])).1.run Lib.inert
        (["j", "j", "j", "k"].map Msg.key)).offset :=
  ⟨by decide, by decide,
   (feed_updown_keeps_clamp Lib.inert { FeedModel.zero with height := 14 }
      [Post.zero, Post.zero, Post.zero] ["j", "j", "j", "k"] (by decide) (by decide)).2.2.2.2.2.1,
   (feed_updown_keeps_clamp Lib.inert { FeedModel.zero with height := 14 }
      [Post.zero, Post.zero, Post.zero] ["j", "j", "j", "k"] (by decide)
      (by decide)).2.2.2.2.2.2.1⟩

/-! ## Document decoder -/

/-- C2: for every document whose name contains a '/', parsePost and parseReply
set the record ID to the part of the name after its last '/': the name is some
prefix, then "/", then the ID, and the ID contains no '/'.  In particular the
name "projects/p/databases/(default)/documents/posts/abc123" decodes to ID
"abc123", whatever the fields. -/
theorem parse_id_is_last_segment (tp : String → Option Time) (doc : FirestoreDocument)
    (h : '/' ∈ doc.Name.data) :
    (∃ pre, doc.Name.data = pre ++ '/' :: (parsePost tp doc).1.ID.data) ∧
    '/' ∉ (parsePost tp doc).1.ID.data ∧
    (∃ pre, doc.Name.data = pre ++ '/' :: (parseReply tp doc).1.ID.data) ∧
    '/' ∉ (parseReply tp doc).1.ID.data ∧
    (∀ fields,
      (parsePost tp ⟨"projects/p/databases/(default)/documents/posts/abc123", fields⟩).1.ID
        = "abc123" ∧
      (parseReply tp ⟨"projects/p/databases/(default)/documents/posts/abc123", fields⟩).1.ID
        = "abc123") := by
  obtain ⟨pre, seg, he, hs⟩ := split_at_last_separator doc.Name.data h
  have hid := extractID_append doc.Name pre seg he hs
  rw [parsePost_ID, parseReply_ID, hid]
  refine ⟨⟨pre, he⟩, hs, ⟨pre, he⟩, hs, ?_⟩
  intro fields
  rw [parsePost_ID, parseReply_ID]
  have hx : extractID "projects/p/databases/(default)/documents/posts/abc123" = "abc123" := by
    decide
  exact ⟨hx, hx⟩

/-- The name "posts/abc123" contains a separator and decodes to an ID without
one. -/
theorem parse_id_is_last_segment_witness :
    '/' ∈ ("posts/abc123" : String).data ∧
    '/' ∉ (parsePost (fun _ => none) ⟨"posts/abc123", none⟩).1.ID.data :=
  ⟨by decide, (parse_id_is_last_segment (fun _ => none) ⟨"posts/abc123", none⟩ (by decide)).2.1⟩

/-- C3, evaluated on the code: for the separator-free name "abc123" the
identifier loop of parsePost and parseReply assigns nothing, so the record ID is
the empty string and not the whole name. -/
theorem parse_id_without_separator_is_empty (tp : String → Option Time)
    (fields : Option (List (String × FirestoreValue))) :
    (parsePost tp ⟨"abc123", fields⟩).1.ID = "" ∧
    (parseReply tp ⟨"abc123", fields⟩).1.ID = "" ∧
    (parsePost tp ⟨"abc123", fields⟩).1.ID ≠ "abc123" ∧
    (parseReply tp ⟨"abc123", fields⟩).1.ID ≠ "abc123" := by
  rw [parsePost_ID, parseReply_ID]
  have hx : extractID "abc123" = "" := by decide
  have hy : extractID "abc123" ≠ "abc123" := by decide
  exact ⟨hx, hx, hy, hy⟩

/-- C4: for every document whose field map is absent (nil) or empty, parsePost
returns a nil error and a Post whose authorId, authorUsername and content are
empty, whose createdAt (and updatedAt) is the zero instant, whose counts are 0,
whose topics are empty and whose deleted flag is false.  Its ID is a function of
the name alone (every document of that name gets the same ID), and it is the
final path segment: the text after the last '/' of the name. -/
theorem parse_post_without_fields (tp : String → Option Time) (doc : FirestoreDocument)
    (h : doc.Fields = none ∨ doc.Fields = some []) :
    (parsePost tp doc).2 = none ∧
    (parsePost tp doc).1.AuthorID = "" ∧
    (parsePost tp doc).1.AuthorUsername = "" ∧
    (parsePost tp doc).1.Content = "" ∧
    (parsePost tp doc).1.CreatedAt = Time.zero ∧
    (parsePost tp doc).1.UpdatedAt = Time.zero ∧
    (parsePost tp doc).1.RepliesCount = 0 ∧
    (parsePost tp doc).1.BookmarksCount = 0 ∧
    (parsePost tp doc).1.Topics = [] ∧
    (parsePost tp doc).1.Deleted = false ∧
    (parsePost tp doc).1.ID = extractID doc.Name ∧
    (∀ (tp2 : String → Option Time) (doc2 : FirestoreDocument), doc2.Name = doc.Name →
      (parsePost tp2 doc2).1.ID = (parsePost tp doc).1.ID) ∧
    (∀ pre seg, doc.Name.data = pre ++ '/' :: seg → '/' ∉ seg →
      (parsePost tp doc).1.ID = String.mk seg) := by
  have hp : (parsePost tp doc).1 = { Post.zero with ID := extractID doc.Name } := by
    simp only [parsePost]
    iterate 8 rw [whenField_absent _ _ _ _ _ h]
  refine ⟨rfl, ?_, ?_, ?_, ?_, ?_, ?_, ?_, ?_, ?_, parsePost_ID tp doc, ?_, ?_⟩
  iterate 9 (rw [hp]; rfl)
  · intro tp2 doc2 hn
    rw [parsePost_ID, parsePost_ID, hn]
  · intro pre seg he hs
    rw [parsePost_ID]
    exact extractID_append doc.Name pre seg he hs

/-- A document named "posts/abc123" with an absent field map decodes to a Post
with empty content. -/
theorem parse_post_without_fields_witness :
    ((⟨"posts/abc123", none⟩ : FirestoreDocument).Fields = none ∨
      (⟨"posts/abc123", none⟩ : FirestoreDocument).Fields = some []) ∧
    (parsePost (fun _ => none) ⟨"posts/abc123", none⟩).1.Content = "" :=
  ⟨Or.inl rfl,
   (parse_post_without_fields (fun _ => none) ⟨"posts/abc123", none⟩ (Or.inl rfl)).2.2.2.1⟩

/-- C5: for every document whose "topics" field carries an array value, the
topics of the decoded Post are exactly the array elements that carry a string
value, mapped to those strings, in the original order; an element of another
kind is skipped and the elements after it are still decoded. -/
theorem parse_post_topics (tp : String → Option Time) (doc : FirestoreDocument)
    (v : FirestoreValue) (vs : List FirestoreValue)
    (hv : lookupField doc.Fields "topics" = some v) (ha : v.ArrayValue = some vs) :
    (parsePost tp doc).1.Topics = vs.filterMap FirestoreValue.StringValue ∧
    (∀ a x b, vs = a ++ x :: b → x.StringValue = none →
      (parsePost tp doc).1.Topics =
        a.filterMap FirestoreValue.StringValue ++ b.filterMap FirestoreValue.StringValue) := by
  have ht : (parsePost tp doc).1.Topics = vs.filterMap FirestoreValue.StringValue := by
    rw [parsePost_Topics, hv]
    simp only [Option.some_bind, ha]
    rw [appendTopics_eq]
    rfl
  refine ⟨ht, ?_⟩
  intro a x b hab hx
  rw [ht, hab, List.filterMap_append, List.filterMap_cons, hx]

/-- The array ["x", 3, "y"] decodes to the topics ["x", "y"]. -/
theorem parse_post_topics_witness :
    (parsePost (fun _ => none) ⟨"posts/abc123", some [("topics", FirestoreValue.arr
        [FirestoreValue.str "x", FirestoreValue.int "3", FirestoreValue.str "y"])]⟩).1.Topics
      = ["x", "y"] :=
  (parse_post_topics (fun _ => none) ⟨"posts/abc123", some [("topics", FirestoreValue.arr
        [FirestoreValue.str "x", FirestoreValue.int "3", FirestoreValue.str "y"])]⟩
      (FirestoreValue.arr
        [FirestoreValue.str "x", FirestoreValue.int "3", FirestoreValue.str "y"])
      [FirestoreValue.str "x", FirestoreValue.int "3", FirestoreValue.str "y"]
      rfl rfl).1

/-- C6, as stated, fails: the integerValue "9223372036854775808" denotes a
decimal integer outside the int range, `strconv.Atoi` reports a range error, and
parsePost stores the saturated value 9223372036854775807, not 0. -/
theorem parse_post_count_out_of_range :
    decimalValue ("9223372036854775808" : String).data = some 9223372036854775808 ∧
    (atoi "9223372036854775808").2 = some NumErr.range ∧
    (parsePost (fun _ => none) ⟨"posts/abc123",
        some [("repliesCount", FirestoreValue.int "9223372036854775808")]⟩).2 = none ∧
    (parsePost (fun _ => none) ⟨"posts/abc123",
        some [("repliesCount", FirestoreValue.int "9223372036854775808")]⟩).1.RepliesCount
      = 9223372036854775807 ∧
    (parsePost (fun _ => none) ⟨"posts/abc123",
        some [("repliesCount", FirestoreValue.int "9223372036854775808")]⟩).1.RepliesCount
      ≠ 0 := by
  refine ⟨by decide, by decide, rfl, ?_, ?_⟩ <;> decide

/-- C6, amended: for every document whose "repliesCount" (respectively
"bookmarksCount") field carries an integerValue string, parsePost returns a nil
error and stores the value of `strconv.Atoi` with its error dropped: the integer
the string denotes when it is an optionally signed run of decimal digits whose
value fits the int type; 0 when the string is empty, a lone sign, or reaches a
non-digit character after a digit run of value at most 2^64 - 1; and the nearest
bound of int (maxInt, or minInt below the range) when the string denotes a
decimal integer outside the int range. -/
theorem parse_post_counts_follow_atoi (tp : String → Option Time) (doc : FirestoreDocument)
    (key : String) (v : FirestoreValue) (s : String)
    (hkey : key = "repliesCount" ∨ key = "bookmarksCount")
    (hv : lookupField doc.Fields key = some v) (hi : v.IntegerValue = some s) :
    (parsePost tp doc).2 = none ∧
    (∀ n, decimalValue s.data = some n → minInt ≤ n → n ≤ maxInt →
      Post.count key (parsePost tp doc).1 = n) ∧
    (unsignedBody s.data = [] → Post.count key (parsePost tp doc).1 = 0) ∧
    (∀ ds c rest, unsignedBody s.data = ds ++ c :: rest → (∀ x ∈ ds, isDigit x = true) →
      isDigit c = false → digitsVal ds ≤ maxUint64 →
      Post.count key (parsePost tp doc).1 = 0) ∧
    (∀ n, decimalValue s.data = some n → maxInt < n →
      Post.count key (parsePost tp doc).1 = maxInt) ∧
    (∀ n, decimalValue s.data = some n → n < minInt →
      Post.count key (parsePost tp doc).1 = minInt) := by
  rw [Post.count_parsePost tp doc key v s hkey hv hi]
  have hs := parseInt_syntax s.data
  refine ⟨rfl, ?_, ?_, ?_, ?_, ?_⟩
  · intro n hn hlo hhi
    show (parseInt s.data).1 = n
    rw [(parseInt_of_decimalValue s.data n hn).1 hlo hhi]
  · intro hb
    show (parseInt s.data).1 = 0
    rw [hs.1 hb]
  · intro ds c rest hb hd hc hle
    show (parseInt s.data).1 = 0
    rw [hs.2 ds c rest hb hd hc hle]
  · intro n hn hhi
    show (parseInt s.data).1 = maxInt
    rw [(parseInt_of_decimalValue s.data n hn).2.1 hhi]
  · intro n hn hlo
    show (parseInt s.data).1 = minInt
    rw [(parseInt_of_decimalValue s.data n hn).2.2 hlo]

/-- The integerValue "42" under "bookmarksCount" decodes to 42, and
"-9223372036854775809" under "repliesCount" to minInt. -/
theorem parse_post_counts_follow_atoi_witness :
    Post.count "bookmarksCount" (parsePost (fun _ => none) ⟨"posts/abc123",
        some [("bookmarksCount", FirestoreValue.int "42")]⟩).1 = 42 ∧
    Post.count "repliesCount" (parsePost (fun _ => none) ⟨"posts/abc123",
        some [("repliesCount", FirestoreValue.int "-9223372036854775809")]⟩).1 = minInt :=
  ⟨(parse_post_counts_follow_atoi (fun _ => none)
      ⟨"posts/abc123", some [("bookmarksCount", FirestoreValue.int "42")]⟩
      "bookmarksCount" (FirestoreValue.int "42") "42" (Or.inr rfl) rfl rfl).2.1 42
      (by decide) (by decide) (by decide),
   (parse_post_counts_follow_atoi (fun _ => none)
      ⟨"posts/abc123", some [("repliesCount", FirestoreValue.int "-9223372036854775809")]⟩
      "repliesCount" (FirestoreValue.int "-9223372036854775809") "-9223372036854775809"
      (Or.inl rfl) rfl rfl).2.2.2.2.2 (-9223372036854775809) (by decide) (by decide)⟩

/-- C7: for every list of query-result wrappers, the decode loop of FetchPosts
(and likewise of FetchReplies) returns a nil error and, in the original order,
exactly the decoding of each wrapper that carries a document; wrappers without a
document are skipped, and parsePost and parseReply return a nil error for every
document, so no document stops the loop or is left out. -/
theorem decode_loops_keep_every_document (tp : String → Option Time)
    (results : List FirestoreQueryResult) :
    decodePosts tp [] results =
      (results.filterMap (fun r => r.Document.map (fun d => (parsePost tp d).1)), none) ∧
    decodeReplies tp [] results =
      (results.filterMap (fun r => r.Document.map (fun d => (parseReply tp d).1)), none) ∧
    (∀ d, (parsePost tp d).2 = none) ∧
    (∀ d, (parseReply tp d).2 = none) ∧
    (decodePosts tp [] results).1.length = (results.filter (fun r => r.Document.isSome)).length ∧
    (decodeReplies tp [] results).1.length
      = (results.filter (fun r => r.Document.isSome)).length := by
  have hlen : ∀ {α : Type} (f : FirestoreDocument → α),
      (results.filterMap (fun r => r.Document.map f)).length
        = (results.filter (fun r => r.Document.isSome)).length := by
    intro α f
    induction results with
    | nil => rfl
    | cons r rest ih =>
      cases h : r.Document with
      | none => simp [List.filterMap_cons, List.filter_cons, h, ih]
      | some d => simp [List.filterMap_cons, List.filter_cons, h, ih]
  have h1 := decodePosts_acc tp results []
  have h2 := decodeReplies_acc tp results []
  rw [List.nil_append] at h1 h2
  refine ⟨h1, h2, fun _ => rfl, fun _ => rfl, ?_, ?_⟩
  · rw [h1]; exact hlen _
  · rw [h2]; exact hlen _

/-! ## Login screen -/

theorem Cmd.ofLib_ne_attemptLogin (o : Option Nat) (e p k : String) :
    Cmd.ofLib o ≠ Cmd.attemptLogin e p k := by
  cases o <;> simp [Cmd.ofLib]

theorem TextInput.Update_cmd_ne_attemptLogin (lib : Lib) (t : TextInput) (msg : Msg)
    (e p k : String) : (t.Update lib msg).2 ≠ Cmd.attemptLogin e p k := by
  unfold TextInput.Update
  split
  · simp
  · exact Cmd.ofLib_ne_attemptLogin _ e p k

theorem LoginModel.updateInput_frame (lib : Lib) (m : LoginModel) (msg : Msg) :
    (m.updateInput lib msg).1.loading = m.loading ∧
    ∀ e p k, (m.updateInput lib msg).2 ≠ Cmd.attemptLogin e p k := by
  unfold LoginModel.updateInput
  split
  · exact ⟨rfl, fun e p k => TextInput.Update_cmd_ne_attemptLogin lib _ msg e p k⟩
  · exact ⟨rfl, fun e p k => TextInput.Update_cmd_ne_attemptLogin lib _ msg e p k⟩

/-- C8: for every LoginModel that is not loading, an "enter" key starts the
login (loading becomes true, the error is cleared and the login command over the
two buffers is returned) if and only if the focus index is 1 (password field) or
both buffers are non-empty; no login command is returned otherwise; and with the
focus on the email field (index 0) and at least one buffer empty, loading stays
false, the focus index becomes 1, the password field is focused, the email field
is blurred and both buffers keep their contents. -/
theorem login_enter_submits_or_advances (lib : Lib) (m : LoginModel) (hl : m.loading = false) :
    (((LoginModel.Update lib m (Msg.key "enter")).1.loading = true ∧
      (LoginModel.Update lib m (Msg.key "enter")).1.err = none ∧
      (LoginModel.Update lib m (Msg.key "enter")).2
        = Cmd.attemptLogin m.emailInput.Value m.passwordInput.Value m.apiKey) ↔
      (m.focusIndex = 1 ∨ (m.emailInput.Value ≠ "" ∧ m.passwordInput.Value ≠ ""))) ∧
    ((∃ e p k, (LoginModel.Update lib m (Msg.key "enter")).2 = Cmd.attemptLogin e p k) →
      (m.focusIndex = 1 ∨ (m.emailInput.Value ≠ "" ∧ m.passwordInput.Value ≠ ""))) ∧
    (m.focusIndex = 0 → (m.emailInput.Value = "" ∨ m.passwordInput.Value = "") →
      (LoginModel.Update lib m (Msg.key "enter")).2 = Cmd.blink ∧
      (LoginModel.Update lib m (Msg.key "enter")).1.loading = false ∧
      (LoginModel.Update lib m (Msg.key "enter")).1.focusIndex = 1 ∧
      (LoginModel.Update lib m (Msg.key "enter")).1.passwordInput.focus = true ∧
      (LoginModel.Update lib m (Msg.key "enter")).1.emailInput.focus = false ∧
      (LoginModel.Update lib m (Msg.key "enter")).1.emailInput.Value = m.emailInput.Value ∧
      (LoginModel.Update lib m (Msg.key "enter")).1.passwordInput.Value
        = m.passwordInput.Value) := by
  have hne1 : ¬ ("enter" = "ctrl+c" ∨ "enter" = "esc") := by decide
  have hne2 : ¬ ("enter" = "tab" ∨ "enter" = "down") := by decide
  have hne3 : ¬ ("enter" = "shift+tab" ∨ "enter" = "up") := by decide
  have hU : LoginModel.Update lib m (Msg.key "enter") =
      if m.focusIndex = 1 ∨ (m.emailInput.Value ≠ "" ∧ m.passwordInput.Value ≠ "") then
        ({ m with loading := true, err := none },
          LoginModel.attemptLogin { m with loading := true, err := none })
      else if m.focusIndex = 0 then LoginModel.updateFocus { m with focusIndex := 1 }
      else LoginModel.updateInput lib m (Msg.key "enter") := by
    simp only [LoginModel.Update, hl, Bool.false_eq_true, if_false, hne1, hne2, hne3, if_true]
  rw [hU]
  by_cases hc : m.focusIndex = 1 ∨ (m.emailInput.Value ≠ "" ∧ m.passwordInput.Value ≠ "")
  · rw [if_pos hc]
    refine ⟨⟨fun _ => hc, fun _ => ⟨rfl, rfl, rfl⟩⟩, fun _ => hc, ?_⟩
    intro h0 hemp
    exfalso
    rcases hc with h1 | ⟨h2, h3⟩
    · omega
    · rcases hemp with h | h
      · exact h2 h
      · exact h3 h
  · rw [if_neg hc]
    by_cases h0 : m.focusIndex = 0
    · rw [if_pos h0]
      refine ⟨⟨?_, fun h => absurd h hc⟩, ?_, ?_⟩
      · intro h
        have : (LoginModel.updateFocus { m with focusIndex := 1 }).1.loading = m.loading := by
          simp [LoginModel.updateFocus]
        rw [this, hl] at h
        exact absurd h.1 (by decide)
      · rintro ⟨e, p, k, h⟩
        simp [LoginModel.updateFocus, TextInput.Focus] at h
      · intro _ _
        simp [LoginModel.updateFocus, TextInput.Focus, TextInput.Blur, TextInput.Value, hl]
    · rw [if_neg h0]
      have hf := LoginModel.updateInput_frame lib m (Msg.key "enter")
      refine ⟨⟨?_, fun h => absurd h hc⟩, ?_, fun h => absurd h h0⟩
      · intro h
        rw [hf.1, hl] at h
        exact absurd h.1 (by decide)
      · rintro ⟨e, p, k, h⟩
        exact absurd h (hf.2 e p k)

/-- A fresh login screen (both buffers empty, focus on email): "enter" moves the
focus to the password field. -/
theorem login_enter_submits_or_advances_witness :
    (NewLoginModel "key").loading = false ∧
    (LoginModel.Update Lib.inert (NewLoginModel "key") (Msg.key "enter")).1.focusIndex = 1 ∧
    (LoginModel.Update Lib.inert (NewLoginModel "key") (Msg.key "enter")).2 = Cmd.blink :=
  ⟨rfl,
   ((login_enter_submits_or_advances Lib.inert (NewLoginModel "key") rfl).2.2 rfl
      (Or.inl rfl)).2.2.1,
   ((login_enter_submits_or_advances Lib.inert (NewLoginModel "key") rfl).2.2 rfl
      (Or.inl rfl)).1⟩

/-- C9: for every LoginModel `m` and every error `e`, handling LoginErrorMsg{e}
sets the error to `e` and loading to false, leaves the email buffer, the
password buffer, the focus index, the API key and the stored viewport size
unchanged and returns no command; and a top-level Model with Login active
handles the message by doing just that to its login model: it returns no
command, the active screen stays Login and nothing else changes. -/
theorem login_error_keeps_buffers (lib : Lib) (m : LoginModel) (M : Model) (e : Option Error)
    (hM : M.state = AppState.StateLogin) :
    (LoginModel.Update lib m (Msg.loginError e)).1.err = e ∧
    (LoginModel.Update lib m (Msg.loginError e)).1.loading = false ∧
    (LoginModel.Update lib m (Msg.loginError e)).1.emailInput = m.emailInput ∧
    (LoginModel.Update lib m (Msg.loginError e)).1.passwordInput = m.passwordInput ∧
    (LoginModel.Update lib m (Msg.loginError e)).1.focusIndex = m.focusIndex ∧
    (LoginModel.Update lib m (Msg.loginError e)).1.apiKey = m.apiKey ∧
    (LoginModel.Update lib m (Msg.loginError e)).1.width = m.width ∧
    (LoginModel.Update lib m (Msg.loginError e)).1.height = m.height ∧
    (LoginModel.Update lib m (Msg.loginError e)).2 = Cmd.none ∧
    Model.Update lib M (Msg.loginError e) =
      some ({ M with loginModel := (LoginModel.Update lib M.loginModel (Msg.loginError e)).1 },
        Cmd.none) ∧
    ({ M with loginModel :=
        (LoginModel.Update lib M.loginModel (Msg.loginError e)).1 } : Model).state
      = AppState.StateLogin := by
  refine ⟨rfl, rfl, rfl, rfl, rfl, rfl, rfl, rfl, rfl, ?_, hM⟩
  simp only [Model.Update, Model.dispatch, hM]
  rfl

/-- The login screen of a fresh start, with a login in flight, receives a
failure: the screen stays Login and the error is recorded. -/
theorem login_error_keeps_buffers_witness :
    (initialModel "key" "proj" none).state = AppState.StateLogin ∧
    (LoginModel.Update Lib.inert { NewLoginModel "key" with loading := true }
        (Msg.loginError (some "Invalid password"))).1.err = some "Invalid password" ∧
    Model.Update Lib.inert (initialModel "key" "proj" none)
        (Msg.loginError (some "Invalid password")) =
      some ({ initialModel "key" "proj" none with loginModel :=
          (LoginModel.Update Lib.inert (initialModel "key" "proj" none).loginModel
            (Msg.loginError (some "Invalid password"))).1 }, Cmd.none) :=
  ⟨rfl,
   (login_error_keeps_buffers Lib.inert { NewLoginModel "key" with loading := true }
      (initialModel "key" "proj" none) (some "Invalid password") rfl).1,
   (login_error_keeps_buffers Lib.inert { NewLoginModel "key" with loading := true }
      (initialModel "key" "proj" none) (some "Invalid password") rfl).2.2.2.2.2.2.2.2.2.1⟩

/-! ## Opening a post -/

/-- C10, as stated, fails for a post with an empty ID (what the decoder yields
for a document named "posts/"): opening it from the Feed schedules a fetch
closure that does request the post again (with the empty ID) and on success
delivers the fetched post, not the one carried from the Feed.  And a Model
with Feed active but no session config cannot handle OpenPostMsg at all. -/
theorem open_post_with_empty_id_refetches :
    (parsePost (fun _ => none)
        ⟨"posts/", some [("content", FirestoreValue.str "hello")]⟩).1
      = { Post.zero with Content := "hello" } ∧
    (∃ M1, Model.Update Lib.inert
        (initialModel "key" "proj" (some ⟨"tok", "", "", "", ""⟩))
        (Msg.openPost { Post.zero with Content := "hello" })
      = some (M1, Cmd.batch Cmd.spinnerTick
          (Cmd.fetchPostAndReplies { Post.zero with Content := "hello" } ""
            (some ⟨"proj", "tok"⟩)))) ∧
    runFetchPostAndReplies
        ⟨fun _ _ => Except.ok { Post.zero with Content := "other" }, fun _ _ => Except.ok []⟩
        { Post.zero with Content := "hello" } "" (some ⟨"proj", "tok"⟩)
      = some (Msg.postDetailLoaded { Post.zero with Content := "other" } [],
          [StoreCall.fetchPost "", StoreCall.fetchReplies ""]) ∧
    Model.Update Lib.inert
        { initialModel "key" "proj" (some ⟨"tok", "", "", "", ""⟩) with config := none }
        (Msg.openPost { Post.zero with ID := "abc123" }) = none := by
  refine ⟨by decide, ⟨_, rfl⟩, rfl, rfl⟩

/-- C10, amended: for every post P with a non-empty ID, when the top-level Model
with Feed active and a session config present handles OpenPostMsg{P}, the active
screen becomes PostDetail with the detail model's post equal to P, its postID
equal to P.ID, no replies and loading = true, and the Feed model is kept; the
command scheduled is the spinner tick batched with the fetch closure, and running
that closure against any store requests only the replies of P.ID, never the
post, and delivers PostDetailLoadedMsg with Post = P when that request succeeds
(PostDetailErrorMsg when it fails). -/
theorem open_post_carries_post (lib : Lib) (M : Model) (P : Post) (cfg : Config)
    (hS : M.state = AppState.StateFeed) (hC : M.config = some cfg) (hP : P.ID ≠ "") :
    Model.Update lib M (Msg.openPost P) =
      some ({ M with state := AppState.StatePostDetail,
                     postDetailModel := NewPostDetailModelWithPost M.projectID cfg.IDToken P },
        Cmd.batch Cmd.spinnerTick
          (Cmd.fetchPostAndReplies P P.ID (some (NewFirestoreClient M.projectID cfg.IDToken)))) ∧
    (NewPostDetailModelWithPost M.projectID cfg.IDToken P).post = P ∧
    (NewPostDetailModelWithPost M.projectID cfg.IDToken P).postID = P.ID ∧
    (NewPostDetailModelWithPost M.projectID cfg.IDToken P).replies = [] ∧
    (NewPostDetailModelWithPost M.projectID cfg.IDToken P).loading = true ∧
    (∀ store : Store, ∃ msg,
      runFetchPostAndReplies store P P.ID (some (NewFirestoreClient M.projectID cfg.IDToken))
        = some (msg, [StoreCall.fetchReplies P.ID]) ∧
      (∀ replies, store.FetchReplies (NewFirestoreClient M.projectID cfg.IDToken) P.ID
          = Except.ok replies → msg = Msg.postDetailLoaded P replies) ∧
      (∀ err, store.FetchReplies (NewFirestoreClient M.projectID cfg.IDToken) P.ID
          = Except.error err → msg = Msg.postDetailError (some err))) := by
  refine ⟨?_, rfl, rfl, rfl, rfl, ?_⟩
  · simp only [Model.Update, Model.dispatch, hS, hC, FeedModel.Update]
    rfl
  · intro store
    simp only [runFetchPostAndReplies, hP, if_false]
    cases store.FetchReplies (NewFirestoreClient M.projectID cfg.IDToken) P.ID with
    | error err =>
      refine ⟨_, rfl, ?_, ?_⟩
      · intro replies h; cases h
      · intro err2 h; cases h; rfl
    | ok replies =>
      refine ⟨_, rfl, ?_, ?_⟩
      · intro replies2 h; cases h; rfl
      · intro err h; cases h

/-- A Feed reached with a cached session opens a post with ID "abc123": the
screen becomes PostDetail and the closure carries the post with the ID to fetch
replies for. -/
theorem open_post_carries_post_witness :
    (initialModel "key" "proj" (some ⟨"tok", "", "", "", ""⟩)).state = AppState.StateFeed ∧
    (initialModel "key" "proj" (some ⟨"tok", "", "", "", ""⟩)).config
      = some ⟨"tok", "", "", "", ""⟩ ∧
    ({ Post.zero with ID := "abc123" } : Post).ID ≠ "" ∧
    Model.Update Lib.inert (initialModel "key" "proj" (some ⟨"tok", "", "", "", ""⟩))
        (Msg.openPost { Post.zero with ID := "abc123" }) =
      some ({ initialModel "key" "proj" (some ⟨"tok", "", "", "", ""⟩) with
                state := AppState.StatePostDetail,
                postDetailModel :=
                  NewPostDetailModelWithPost "proj" "tok" { Post.zero with ID := "abc123" } },
        Cmd.batch Cmd.spinnerTick
          (Cmd.fetchPostAndReplies { Post.zero with ID := "abc123" } "abc123"
            (some ⟨"proj", "tok"⟩))) :=
  ⟨rfl, rfl, by decide,
   (open_post_carries_post Lib.inert (initialModel "key" "proj" (some ⟨"tok", "", "", "", ""⟩))
      { Post.zero with ID := "abc123" } ⟨"tok", "", "", "", ""⟩ rfl rfl (by decide)).1⟩

/-! ## Failed fetches -/

/-- C11: for every FeedModel and every error `e`, handling PostsErrorMsg{e} sets
the error to `e` and loading to false and changes nothing else (posts, cursor,
offset, spinner, client and stored viewport size are unchanged) and returns no
command; likewise for every PostDetailModel, handling PostDetailErrorMsg{e}
changes only the error and the loading flag, leaving post, replies, scroll,
postID, spinner, client and viewport size unchanged, with no command. -/
theorem fetch_error_changes_only_error_and_loading (lib : Lib) (m : FeedModel)
    (d : PostDetailModel) (e : Option Error) :
    (FeedModel.Update lib m (Msg.postsError e)).2 = Cmd.none ∧
    (FeedModel.Update lib m (Msg.postsError e)).1.err = e ∧
    (FeedModel.Update lib m (Msg.postsError e)).1.loading = false ∧
    (FeedModel.Update lib m (Msg.postsError e)).1.posts = m.posts ∧
    (FeedModel.Update lib m (Msg.postsError e)).1.cursor = m.cursor ∧
    (FeedModel.Update lib m (Msg.postsError e)).1.offset = m.offset ∧
    (FeedModel.Update lib m (Msg.postsError e)).1.width = m.width ∧
    (FeedModel.Update lib m (Msg.postsError e)).1.height = m.height ∧
    (FeedModel.Update lib m (Msg.postsError e)).1.spinner = m.spinner ∧
    (FeedModel.Update lib m (Msg.postsError e)).1.client = m.client ∧
    (PostDetailModel.Update lib d (Msg.postDetailError e)).2 = Cmd.none ∧
    (PostDetailModel.Update lib d (Msg.postDetailError e)).1.err = e ∧
    (PostDetailModel.Update lib d (Msg.postDetailError e)).1.loading = false ∧
    (PostDetailModel.Update lib d (Msg.postDetailError e)).1.post = d.post ∧
    (PostDetailModel.Update lib d (Msg.postDetailError e)).1.replies = d.replies ∧
    (PostDetailModel.Update lib d (Msg.postDetailError e)).1.scroll = d.scroll ∧
    (PostDetailModel.Update lib d (Msg.postDetailError e)).1.postID = d.postID ∧
    (PostDetailModel.Update lib d (Msg.postDetailError e)).1.width = d.width ∧
    (PostDetailModel.Update lib d (Msg.postDetailError e)).1.height = d.height ∧
    (PostDetailModel.Update lib d (Msg.postDetailError e)).1.spinner = d.spinner ∧
    (PostDetailModel.Update lib d (Msg.postDetailError e)).1.client = d.client := by
  refine ⟨rfl, rfl, rfl, rfl, rfl, rfl, rfl, rfl, rfl, rfl, rfl, rfl, rfl, rfl, rfl, rfl, rfl,
    rfl, rfl, rfl, rfl⟩

/-! ## Cursor and window of the Feed -/

/-- C12, evaluated on the code: from NewFeedModel, an empty PostsLoadedMsg
followed by the key "G" leaves the list empty with cursor = -1 and offset = -1,
not 0 and 0: the "G" branch assigns `len(posts) - 1` without looking at the
length. -/
theorem feed_jump_to_bottom_on_empty_list (lib : Lib) (projectID idToken : String) :
    ((NewFeedModel projectID idToken).run lib [Msg.postsLoaded [], Msg.key "G"]).posts = [] ∧
    ((NewFeedModel projectID idToken).run lib [Msg.postsLoaded [], Msg.key "G"]).cursor = -1 ∧
    ((NewFeedModel projectID idToken).run lib [Msg.postsLoaded [], Msg.key "G"]).offset = -1 := by
  refine ⟨rfl, rfl, rfl⟩

/-- C13, evaluated on the code: a Feed started from a cached session on a
104-row terminal, three posts, cursor moved to row 2, the post opened, the
terminal resized to 9 rows while PostDetail is active, then back.  Feed is
active with a non-empty list, the Model has recorded height 9 (page capacity 1),
but the Feed model still holds height 104 and the window offset 0: the cursor
row 2 is outside the window of the current height. -/
theorem resize_during_detail_leaves_feed_window_stale :
    ∃ M, Model.run Lib.inert (initialModel "key" "proj" (some ⟨"tok", "", "", "", ""⟩))
        [Msg.windowSize 80 104,
         Msg.postsLoaded [Post.zero, Post.zero, { Post.zero with ID := "c" }],
         Msg.key "j", Msg.key "j", Msg.key "enter",
         Msg.openPost { Post.zero with ID := "c" },
         Msg.windowSize 80 9,
         Msg.backToFeed] = some M ∧
      M.state = AppState.StateFeed ∧
      M.feedModel.posts ≠ [] ∧
      M.height = 9 ∧
      pageCapacity M.height = 1 ∧
      M.feedModel.height = 104 ∧
      M.feedModel.cursor = 2 ∧
      M.feedModel.offset = 0 ∧
      ¬ (M.feedModel.cursor ≤ M.feedModel.offset + pageCapacity M.height - 1) := by
  refine ⟨_, rfl, ?_, ?_, ?_, ?_, ?_, ?_, ?_, ?_⟩ <;> decide

/-! ## Keys on the Login screen -/

/-- C14, as stated, fails for "esc": with a login in flight the Login screen
returns before it looks at the key, so "esc" leaves the Model unchanged and
yields no command instead of the quit command. -/
theorem login_in_flight_ignores_esc :
    ({ initialModel "key" "proj" none with
        loginModel := { NewLoginModel "key" with loading := true } } : Model).state
      = AppState.StateLogin ∧
    ({ initialModel "key" "proj" none with
        loginModel := { NewLoginModel "key" with loading := true } } : Model).loginModel.loading
      = true ∧
    Model.Update Lib.inert
        { initialModel "key" "proj" none with
          loginModel := { NewLoginModel "key" with loading := true } } (Msg.key "esc")
      = some ({ initialModel "key" "proj" none with
                loginModel := { NewLoginModel "key" with loading := true } }, Cmd.none) := by
  refine ⟨rfl, rfl, rfl⟩

/-- C14, amended: for every top-level Model whose active screen is Login with a
login command in flight, every key event other than "ctrl+c" ("esc" included)
leaves the whole Model unchanged and schedules no command, while "ctrl+c" still
yields the quit command, the Model unchanged. -/
theorem login_in_flight_ignores_keys (lib : Lib) (M : Model) (s : String)
    (hS : M.state = AppState.StateLogin) (hL : M.loginModel.loading = true) :
    (s ≠ "ctrl+c" → Model.Update lib M (Msg.key s) = some (M, Cmd.none)) ∧
    Model.Update lib M (Msg.key "ctrl+c") = some (M, Cmd.quit) := by
  refine ⟨?_, ?_⟩
  · intro hs
    have hd : Model.Update lib M (Msg.key s) = Model.dispatch lib M (Msg.key s) := by
      simp only [Model.Update, hs, if_false]
    rw [hd]
    cases M with
    | mk st lm fm pd cfg ak pid w h =>
      simp only at hS hL
      subst hS
      simp only [Model.dispatch, LoginModel.Update, hL, if_true]
  · simp only [Model.Update, if_true]

/-- With a login in flight the key "a" changes nothing. -/
theorem login_in_flight_ignores_keys_witness :
    ({ initialModel "key" "proj" none with
        loginModel := { NewLoginModel "key" with loading := true } } : Model).state
      = AppState.StateLogin ∧
    Model.Update Lib.inert
        { initialModel "key" "proj" none with
          loginModel := { NewLoginModel "key" with loading := true } } (Msg.key "a")
      = some ({ initialModel "key" "proj" none with
                loginModel := { NewLoginModel "key" with loading := true } }, Cmd.none) :=
  ⟨rfl, (login_in_flight_ignores_keys Lib.inert
      { initialModel "key" "proj" none with
        loginModel := { NewLoginModel "key" with loading := true } } "a" rfl rfl).1 (by decide)⟩

theorem TextInput.Update_focus (lib : Lib) (t : TextInput) (msg : Msg) :
    (t.Update lib msg).1.focus = t.focus := by
  unfold TextInput.Update
  split <;> rfl

theorem LoginModel.updateInput_focus (lib : Lib) (m : LoginModel) (msg : Msg) :
    (m.updateInput lib msg).1.focusIndex = m.focusIndex ∧
    (m.updateInput lib msg).1.emailInput.focus = m.emailInput.focus ∧
    (m.updateInput lib msg).1.passwordInput.focus = m.passwordInput.focus := by
  unfold LoginModel.updateInput
  split
  · exact ⟨rfl, TextInput.Update_focus lib _ msg, rfl⟩
  · exact ⟨rfl, rfl, TextInput.Update_focus lib _ msg⟩

theorem LoginModel.updateFocus_focus (m : LoginModel) (h : m.focusIndex = 0 ∨ m.focusIndex = 1) :
    (m.updateFocus).1.focusIndex = m.focusIndex ∧
    ((m.updateFocus).1.emailInput.focus = true ↔ m.focusIndex = 0) ∧
    ((m.updateFocus).1.passwordInput.focus = true ↔ m.focusIndex = 1) := by
  unfold LoginModel.updateFocus
  rcases h with h | h
  · simp [h, TextInput.Focus, TextInput.Blur]
  · simp [h, TextInput.Focus, TextInput.Blur]

/-- The focus invariant of the Login screen (index 0 or 1, and each field focused
exactly when the index names it) is kept by every message. -/
theorem LoginModel.focus_step (lib : Lib) (m : LoginModel) (msg : Msg)
    (h : (m.focusIndex = 0 ∨ m.focusIndex = 1) ∧ (m.emailInput.focus = true ↔ m.focusIndex = 0) ∧
      (m.passwordInput.focus = true ↔ m.focusIndex = 1)) :
    ((LoginModel.Update lib m msg).1.focusIndex = 0 ∨
      (LoginModel.Update lib m msg).1.focusIndex = 1) ∧
    ((LoginModel.Update lib m msg).1.emailInput.focus = true ↔
      (LoginModel.Update lib m msg).1.focusIndex = 0) ∧
    ((LoginModel.Update lib m msg).1.passwordInput.focus = true ↔
      (LoginModel.Update lib m msg).1.focusIndex = 1) := by
  obtain ⟨h01, he, hp⟩ := h
  have viaInput : ∀ (m1 : LoginModel) (msg1 : Msg), m1.focusIndex = m.focusIndex →
      m1.emailInput.focus = m.emailInput.focus → m1.passwordInput.focus = m.passwordInput.focus →
      ((m1.updateInput lib msg1).1.focusIndex = 0 ∨ (m1.updateInput lib msg1).1.focusIndex = 1) ∧
      ((m1.updateInput lib msg1).1.emailInput.focus = true ↔
        (m1.updateInput lib msg1).1.focusIndex = 0) ∧
      ((m1.updateInput lib msg1).1.passwordInput.focus = true ↔
        (m1.updateInput lib msg1).1.focusIndex = 1) := by
    intro m1 msg1 h1 h2 h3
    obtain ⟨a, b, c⟩ := LoginModel.updateInput_focus lib m1 msg1
    rw [a, b, c, h1, h2, h3]
    exact ⟨h01, he, hp⟩
  have viaFocus : ∀ (m1 : LoginModel), (m1.focusIndex = 0 ∨ m1.focusIndex = 1) →
      ((m1.updateFocus).1.focusIndex = 0 ∨ (m1.updateFocus).1.focusIndex = 1) ∧
      ((m1.updateFocus).1.emailInput.focus = true ↔ (m1.updateFocus).1.focusIndex = 0) ∧
      ((m1.updateFocus).1.passwordInput.focus = true ↔ (m1.updateFocus).1.focusIndex = 1) := by
    intro m1 h1
    obtain ⟨a, b, c⟩ := LoginModel.updateFocus_focus m1 h1
    rw [a]
    exact ⟨h1, b, c⟩
  have hflip1 : (m.focusIndex + 1).tmod 2 = 0 ∨ (m.focusIndex + 1).tmod 2 = 1 := by
    rcases h01 with h | h <;> rw [h] <;> decide
  have hflip2 : (m.focusIndex - 1 + 2).tmod 2 = 0 ∨ (m.focusIndex - 1 + 2).tmod 2 = 1 := by
    rcases h01 with h | h <;> rw [h] <;> decide
  cases msg with
  | key s =>
    simp only [LoginModel.Update]
    split_ifs
    · exact ⟨h01, he, hp⟩
    · exact ⟨h01, he, hp⟩
    · exact viaFocus _ hflip1
    · exact viaFocus _ hflip2
    · exact ⟨h01, he, hp⟩
    · exact viaFocus _ (Or.inr rfl)
    · exact viaInput m _ rfl rfl rfl
    · exact viaInput m _ rfl rfl rfl
  | windowSize w h => exact viaInput _ _ rfl rfl rfl
  | loginSuccess a b c d => exact ⟨h01, he, hp⟩
  | loginError e => exact ⟨h01, he, hp⟩
  | spinnerTick => exact viaInput m _ rfl rfl rfl
  | postsLoaded ps => exact viaInput m _ rfl rfl rfl
  | postsError e => exact viaInput m _ rfl rfl rfl
  | openPost p => exact viaInput m _ rfl rfl rfl
  | postDetailLoaded p r => exact viaInput m _ rfl rfl rfl
  | postDetailError e => exact viaInput m _ rfl rfl rfl
  | backToFeed => exact viaInput m _ rfl rfl rfl
  | other t => exact viaInput m _ rfl rfl rfl

theorem LoginModel.focus_run (lib : Lib) (msgs : List Msg) :
    ∀ m : LoginModel,
      ((m.focusIndex = 0 ∨ m.focusIndex = 1) ∧ (m.emailInput.focus = true ↔ m.focusIndex = 0) ∧
        (m.passwordInput.focus = true ↔ m.focusIndex = 1)) →
      (((m.run lib msgs).focusIndex = 0 ∨ (m.run lib msgs).focusIndex = 1) ∧
        ((m.run lib msgs).emailInput.focus = true ↔ (m.run lib msgs).focusIndex = 0) ∧
        ((m.run lib msgs).passwordInput.focus = true ↔ (m.run lib msgs).focusIndex = 1)) := by
  induction msgs with
  | nil => intro m h; exact h
  | cons msg rest ih =>
    intro m h
    exact ih _ (LoginModel.focus_step lib m msg h)

/-- C15: in every LoginModel state reachable from NewLoginModel by any sequence
of messages handled by LoginModel.Update, the focus index is 0 or 1, the email
field is focused iff the index is 0 and the password field iff it is 1, so
exactly one field is focused; and when not loading, each of "tab", "down",
"shift+tab" and "up" flips the focus index to the other value. -/
theorem login_focus_names_the_focused_field (lib : Lib) (apiKey : String) (msgs : List Msg) :
    (((NewLoginModel apiKey).run lib msgs).focusIndex = 0 ∨
      ((NewLoginModel apiKey).run lib msgs).focusIndex = 1) ∧
    (((NewLoginModel apiKey).run lib msgs).emailInput.focus = true ↔
      ((NewLoginModel apiKey).run lib msgs).focusIndex = 0) ∧
    (((NewLoginModel apiKey).run lib msgs).passwordInput.focus = true ↔
      ((NewLoginModel apiKey).run lib msgs).focusIndex = 1) ∧
    (((NewLoginModel apiKey).run lib msgs).emailInput.focus
      ≠ ((NewLoginModel apiKey).run lib msgs).passwordInput.focus) ∧
    (((NewLoginModel apiKey).run lib msgs).loading = false →
      ∀ s, (s = "tab" ∨ s = "down" ∨ s = "shift+tab" ∨ s = "up") →
        (LoginModel.Update lib ((NewLoginModel apiKey).run lib msgs) (Msg.key s)).1.focusIndex
          = 1 - ((NewLoginModel apiKey).run lib msgs).focusIndex) := by
  have h0 : ((NewLoginModel apiKey).focusIndex = 0 ∨ (NewLoginModel apiKey).focusIndex = 1) ∧
      ((NewLoginModel apiKey).emailInput.focus = true ↔ (NewLoginModel apiKey).focusIndex = 0) ∧
      ((NewLoginModel apiKey).passwordInput.focus = true ↔
        (NewLoginModel apiKey).focusIndex = 1) := by
    refine ⟨Or.inl rfl, ?_, ?_⟩ <;> simp [NewLoginModel, TextInput.Focus, TextInput.new]
  obtain ⟨h01, he, hp⟩ := LoginModel.focus_run lib msgs _ h0
  generalize (NewLoginModel apiKey).run lib msgs = m at h01 he hp ⊢
  refine ⟨h01, he, hp, ?_, ?_⟩
  · rcases h01 with h | h
    · have e1 := he.mpr h
      have e2 : m.passwordInput.focus ≠ true := fun hh => by have := hp.mp hh; omega
      intro heq; rw [e1] at heq; exact e2 heq.symm
    · have e1 := hp.mpr h
      have e2 : m.emailInput.focus ≠ true := fun hh => by have := he.mp hh; omega
      intro heq; rw [e1] at heq; exact e2 heq
  · intro hl s hs
    have hne1 : ∀ t : String, t = "tab" ∨ t = "down" ∨ t = "shift+tab" ∨ t = "up" →
        ¬ (t = "ctrl+c" ∨ t = "esc") := by
      intro t ht; rcases ht with rfl | rfl | rfl | rfl <;> decide
    have hU : (LoginModel.Update lib m (Msg.key s)).1.focusIndex =
        if s = "tab" ∨ s = "down" then (m.focusIndex + 1).tmod 2
        else (m.focusIndex - 1 + 2).tmod 2 := by
      simp only [LoginModel.Update, hl, Bool.false_eq_true, if_false, hne1 s hs]
      by_cases h1 : s = "tab" ∨ s = "down"
      · simp only [h1, if_true]
        exact (LoginModel.updateFocus_focus _ (by
          rcases h01 with h | h <;> simp only [h] <;> decide)).1
      · have h2 : s = "shift+tab" ∨ s = "up" := by
          rcases hs with h | h | h | h
          · exact absurd (Or.inl h) h1
          · exact absurd (Or.inr h) h1
          · exact Or.inl h
          · exact Or.inr h
        simp only [h1, if_false, h2, if_true]
        exact (LoginModel.updateFocus_focus _ (by
          rcases h01 with h | h <;> simp only [h] <;> decide)).1
    rw [hU]
    rcases h01 with h | h <;> rw [h] <;> split <;> decide

/-! ## Scrolling the detail screen -/

theorem Clamp_eq_clampSpec (x hi : Int) (h : 0 ≤ hi) : Clamp x 0 hi = clampSpec x 0 hi := by
  unfold Clamp clampSpec
  split
  · omega
  · split <;> omega

theorem PostDetailModel.maxScroll_eq (lib : Lib) (m : PostDetailModel) :
    m.maxScroll lib =
      max 0 ((lib.contentLines m.post m.replies m.loading m.spinner m.width : Int)
        - (m.height - 4)) := by
  unfold PostDetailModel.maxScroll
  simp only
  split <;> omega

/-- C16: for every PostDetailModel, with L the number of lines of the rendered
content and maxScroll = max(0, L - (height - 4)) (what the method maxScroll
returns): a "j"/"down" key sets scroll to clamp(scroll + 1, 0, maxScroll) and a
"k"/"up" key to clamp(scroll - 1, 0, maxScroll), so after every navigation key
0 <= scroll <= maxScroll, with maxScroll itself unchanged by the key and no
command returned; and maxScroll = 0 whenever the content fits in the visible
lines (L <= height - 4). -/
theorem detail_scroll_saturates (lib : Lib) (m : PostDetailModel) (s : String)
    (hs : s = "j" ∨ s = "down" ∨ s = "k" ∨ s = "up") :
    m.maxScroll lib =
      max 0 ((lib.contentLines m.post m.replies m.loading m.spinner m.width : Int)
        - (m.height - 4)) ∧
    ((s = "j" ∨ s = "down") →
      (PostDetailModel.Update lib m (Msg.key s)).1.scroll
        = clampSpec (m.scroll + 1) 0 (m.maxScroll lib)) ∧
    ((s = "k" ∨ s = "up") →
      (PostDetailModel.Update lib m (Msg.key s)).1.scroll
        = clampSpec (m.scroll - 1) 0 (m.maxScroll lib)) ∧
    0 ≤ (PostDetailModel.Update lib m (Msg.key s)).1.scroll ∧
    (PostDetailModel.Update lib m (Msg.key s)).1.scroll ≤ m.maxScroll lib ∧
    (PostDetailModel.Update lib m (Msg.key s)).1.maxScroll lib = m.maxScroll lib ∧
    (PostDetailModel.Update lib m (Msg.key s)).2 = Cmd.none ∧
    (((lib.contentLines m.post m.replies m.loading m.spinner m.width : Int) ≤ m.height - 4) →
      m.maxScroll lib = 0) := by
  have hmax := PostDetailModel.maxScroll_eq lib m
  have hnn : 0 ≤ m.maxScroll lib := by rw [hmax]; omega
  have hdown : (s = "j" ∨ s = "down") →
      PostDetailModel.Update lib m (Msg.key s) =
        (PostDetailModel.clampScroll lib { m with scroll := m.scroll + 1 }, Cmd.none) := by
    intro h
    rcases h with rfl | rfl <;>
      simp only [PostDetailModel.Update, String.reduceEq, or_self, or_false, false_or, or_true,
        if_false, if_true]
  have hup : (s = "k" ∨ s = "up") →
      PostDetailModel.Update lib m (Msg.key s) =
        (PostDetailModel.clampScroll lib { m with scroll := m.scroll - 1 }, Cmd.none) := by
    intro h
    rcases h with rfl | rfl <;>
      simp only [PostDetailModel.Update, String.reduceEq, or_self, or_false, false_or, or_true,
        if_false, if_true]
  have hms : ∀ x : Int, ({ m with scroll := x } : PostDetailModel).maxScroll lib
      = m.maxScroll lib := fun _ => rfl
  have hcs : ∀ x : Int,
      (PostDetailModel.clampScroll lib { m with scroll := x }).scroll
        = clampSpec x 0 (m.maxScroll lib) := by
    intro x
    show Clamp x 0 (({ m with scroll := x } : PostDetailModel).maxScroll lib) = _
    rw [hms, Clamp_eq_clampSpec _ _ hnn]
  have hcm : ∀ x : Int,
      (PostDetailModel.clampScroll lib { m with scroll := x }).maxScroll lib
        = m.maxScroll lib := fun _ => rfl
  have hb : ∀ x : Int, 0 ≤ clampSpec x 0 (m.maxScroll lib) ∧
      clampSpec x 0 (m.maxScroll lib) ≤ m.maxScroll lib := by
    intro x; unfold clampSpec; omega
  refine ⟨hmax, ?_, ?_, ?_, ?_, ?_, ?_, ?_⟩
  · intro h; rw [hdown h]; exact hcs _
  · intro h; rw [hup h]; exact hcs _
  · rcases hs with h | h | h | h
    · rw [hdown (Or.inl h)]; rw [hcs]; exact (hb _).1
    · rw [hdown (Or.inr h)]; rw [hcs]; exact (hb _).1
    · rw [hup (Or.inl h)]; rw [hcs]; exact (hb _).1
    · rw [hup (Or.inr h)]; rw [hcs]; exact (hb _).1
  · rcases hs with h | h | h | h
    · rw [hdown (Or.inl h)]; rw [hcs]; exact (hb _).2
    · rw [hdown (Or.inr h)]; rw [hcs]; exact (hb _).2
    · rw [hup (Or.inl h)]; rw [hcs]; exact (hb _).2
    · rw [hup (Or.inr h)]; rw [hcs]; exact (hb _).2
  · rcases hs with h | h | h | h
    · rw [hdown (Or.inl h)]; exact hcm _
    · rw [hdown (Or.inr h)]; exact hcm _
    · rw [hup (Or.inl h)]; exact hcm _
    · rw [hup (Or.inr h)]; exact hcm _
  · rcases hs with h | h | h | h
    · rw [hdown (Or.inl h)]
    · rw [hdown (Or.inr h)]
    · rw [hup (Or.inl h)]
    · rw [hup (Or.inr h)]
  · intro hfit; rw [hmax]; omega

/-- Thirty rendered lines on a 14-row terminal (ten visible): at scroll 20 the
key "j" stays at 20, the maximum. -/
theorem detail_scroll_saturates_witness :
    ("j" = "j" ∨ "j" = "down" ∨ "j" = "k" ∨ "j" = "up") ∧
    (PostDetailModel.Update { Lib.inert with contentLines := fun _ _ _ _ _ => 30 }
        { PostDetailModel.zero with height := 14, scroll := 20 } (Msg.key "j")).1.scroll = 20 :=
  ⟨Or.inl rfl,
   (detail_scroll_saturates { Lib.inert with contentLines := fun _ _ _ _ _ => 30 }
      { PostDetailModel.zero with height := 14, scroll := 20 } "j" (Or.inl rfl)).2.1
      (Or.inl rfl)⟩

/-! ## Two completion events -/

/-- C17, as stated, fails.  On a Feed with a fetch in flight and no error, a
failure followed by a loaded result leaves the error set, while the loaded
result alone leaves none; on a PostDetail with a fetch in flight, a loaded
result followed by a failure keeps the loaded post, while the failure alone
keeps the post the screen was opened with. -/
theorem last_completion_does_not_overwrite_everything :
    (NewFeedModel "proj" "tok").loading = true ∧
    (NewFeedModel "proj" "tok").err = none ∧
    ((NewFeedModel "proj" "tok").run Lib.inert
        [Msg.postsError (some "boom"), Msg.postsLoaded [Post.zero]]).err = some "boom" ∧
    ((NewFeedModel "proj" "tok").run Lib.inert [Msg.postsLoaded [Post.zero]]).err = none ∧
    (NewPostDetailModelWithPost "proj" "tok" { Post.zero with ID := "a" }).loading = true ∧
    (NewPostDetailModelWithPost "proj" "tok" { Post.zero with ID := "a" }).err = none ∧
    (PostDetailModel.Update Lib.inert
        (PostDetailModel.Update Lib.inert
          (NewPostDetailModelWithPost "proj" "tok" { Post.zero with ID := "a" })
          (Msg.postDetailLoaded { Post.zero with ID := "b" } [])).1
        (Msg.postDetailError (some "boom"))).1.post = { Post.zero with ID := "b" } ∧
    (PostDetailModel.Update Lib.inert
        (NewPostDetailModelWithPost "proj" "tok" { Post.zero with ID := "a" })
        (Msg.postDetailError (some "boom"))).1.post = { Post.zero with ID := "a" } := by
  refine ⟨rfl, rfl, ?_, ?_, rfl, rfl, ?_, ?_⟩ <;> decide

/-- C17, amended: the last completion event processed wins on the fields its
handler assigns.  After any completion event e1 and then e2, the loading flag is
what it is after e2 alone; when e2 is a loaded result the data (Feed: posts, and
the cursor and offset reset to 0; PostDetail: post and replies) is that of e2
alone; when e2 is a failure the error is that of e2 alone; and when e1 and e2
are of the same kind the whole screen model is the same as after e2 alone. -/
theorem last_completion_wins_on_its_fields (lib : Lib) (m : FeedModel) (d : PostDetailModel)
    (ps1 ps2 : List Post) (p1 p2 : Post) (rs1 rs2 : List Reply) (e1 e2 : Option Error) :
    (∀ ev1, ev1 = Msg.postsLoaded ps1 ∨ ev1 = Msg.postsError e1 →
      (m.run lib [ev1, Msg.postsLoaded ps2]).posts = (m.run lib [Msg.postsLoaded ps2]).posts ∧
      (m.run lib [ev1, Msg.postsLoaded ps2]).cursor = (m.run lib [Msg.postsLoaded ps2]).cursor ∧
      (m.run lib [ev1, Msg.postsLoaded ps2]).offset = (m.run lib [Msg.postsLoaded ps2]).offset ∧
      (m.run lib [ev1, Msg.postsLoaded ps2]).loading
        = (m.run lib [Msg.postsLoaded ps2]).loading ∧
      (m.run lib [ev1, Msg.postsError e2]).err = (m.run lib [Msg.postsError e2]).err ∧
      (m.run lib [ev1, Msg.postsError e2]).loading = (m.run lib [Msg.postsError e2]).loading) ∧
    m.run lib [Msg.postsLoaded ps1, Msg.postsLoaded ps2] = m.run lib [Msg.postsLoaded ps2] ∧
    m.run lib [Msg.postsError e1, Msg.postsError e2] = m.run lib [Msg.postsError e2] ∧
    (∀ ev1, ev1 = Msg.postDetailLoaded p1 rs1 ∨ ev1 = Msg.postDetailError e1 →
      (PostDetailModel.Update lib (PostDetailModel.Update lib d ev1).1
          (Msg.postDetailLoaded p2 rs2)).1.post
        = (PostDetailModel.Update lib d (Msg.postDetailLoaded p2 rs2)).1.post ∧
      (PostDetailModel.Update lib (PostDetailModel.Update lib d ev1).1
          (Msg.postDetailLoaded p2 rs2)).1.replies
        = (PostDetailModel.Update lib d (Msg.postDetailLoaded p2 rs2)).1.replies ∧
      (PostDetailModel.Update lib (PostDetailModel.Update lib d ev1).1
          (Msg.postDetailLoaded p2 rs2)).1.loading
        = (PostDetailModel.Update lib d (Msg.postDetailLoaded p2 rs2)).1.loading ∧
      (PostDetailModel.Update lib (PostDetailModel.Update lib d ev1).1
          (Msg.postDetailError e2)).1.err
        = (PostDetailModel.Update lib d (Msg.postDetailError e2)).1.err ∧
      (PostDetailModel.Update lib (PostDetailModel.Update lib d ev1).1
          (Msg.postDetailError e2)).1.loading
        = (PostDetailModel.Update lib d (Msg.postDetailError e2)).1.loading) ∧
    (PostDetailModel.Update lib (PostDetailModel.Update lib d (Msg.postDetailLoaded p1 rs1)).1
        (Msg.postDetailLoaded p2 rs2)).1
      = (PostDetailModel.Update lib d (Msg.postDetailLoaded p2 rs2)).1 ∧
    (PostDetailModel.Update lib (PostDetailModel.Update lib d (Msg.postDetailError e1)).1
        (Msg.postDetailError e2)).1
      = (PostDetailModel.Update lib d (Msg.postDetailError e2)).1 := by
  refine ⟨?_, rfl, rfl, ?_, rfl, rfl⟩
  · intro ev1 h
    rcases h with rfl | rfl <;> exact ⟨rfl, rfl, rfl, rfl, rfl, rfl⟩
  · intro ev1 h
    rcases h with rfl | rfl <;> exact ⟨rfl, rfl, rfl, rfl, rfl⟩

/-! ## Sign and range of the counts -/

theorem parseIntAfterSign_bounds (neg : Bool) (body : List Char) :
    minInt ≤ (parseIntAfterSign neg body).1 ∧ (parseIntAfterSign neg body).1 ≤ maxInt ∧
    (neg = false → 0 ≤ (parseIntAfterSign neg body).1) := by
  unfold parseIntAfterSign
  simp only
  unfold minInt maxInt intCutoff
  split
  · simp
  · split
    · simp
    · split
      · rename_i h
        simp [h.1]
      · rename_i h1 h2 h3
        cases neg
        · simp only [Bool.false_eq_true, if_false, true_and, not_le] at h2 ⊢
          refine ⟨by omega, by omega, fun _ => by omega⟩
        · simp only [if_true, true_and, not_lt] at h3 ⊢
          refine ⟨by omega, by omega, fun h => by cases h⟩

theorem parseInt_bounds (s : List Char) :
    minInt ≤ (parseInt s).1 ∧ (parseInt s).1 ≤ maxInt ∧
    (s.head? ≠ some '-' → 0 ≤ (parseInt s).1) := by
  cases s with
  | nil => unfold minInt maxInt; simp [parseInt]
  | cons c cs =>
    unfold parseInt
    simp only
    split
    · have h := parseIntAfterSign_bounds false cs
      exact ⟨h.1, h.2.1, fun _ => h.2.2 rfl⟩
    · split
      · rename_i h1 h2
        have h := parseIntAfterSign_bounds true cs
        refine ⟨h.1, h.2.1, ?_⟩
        intro hne
        exact absurd (by rw [h2]; rfl) hne
      · have h := parseIntAfterSign_bounds false (c :: cs)
        exact ⟨h.1, h.2.1, fun _ => h.2.2 rfl⟩

/-- C18, as stated, fails: the integerValue strings "-5" and "-1" decode to the
counts -5 and -1. -/
theorem parse_post_negative_count :
    (parsePost (fun _ => none) ⟨"posts/abc123",
        some [("repliesCount", FirestoreValue.int "-5"),
              ("bookmarksCount", FirestoreValue.int "-1")]⟩).1.RepliesCount = -5 ∧
    (parsePost (fun _ => none) ⟨"posts/abc123",
        some [("repliesCount", FirestoreValue.int "-5"),
              ("bookmarksCount", FirestoreValue.int "-1")]⟩).1.BookmarksCount = -1 ∧
    ¬ (0 ≤ (parsePost (fun _ => none) ⟨"posts/abc123",
        some [("repliesCount", FirestoreValue.int "-5"),
              ("bookmarksCount", FirestoreValue.int "-1")]⟩).1.RepliesCount) := by
  refine ⟨?_, ?_, ?_⟩ <;> decide

/-- C18, amended: for every document, the repliesCount and bookmarksCount of
the Post returned by parsePost are integers in the range of int, and each is
non-negative whenever its field is absent, carries no integerValue, or carries
an integerValue string that does not begin with '-'. -/
theorem parse_post_counts_in_int_range (tp : String → Option Time) (doc : FirestoreDocument) :
    minInt ≤ (parsePost tp doc).1.RepliesCount ∧
    (parsePost tp doc).1.RepliesCount ≤ maxInt ∧
    minInt ≤ (parsePost tp doc).1.BookmarksCount ∧
    (parsePost tp doc).1.BookmarksCount ≤ maxInt ∧
    ((∀ s, (lookupField doc.Fields "repliesCount").bind FirestoreValue.IntegerValue = some s →
        s.data.head? ≠ some '-') → 0 ≤ (parsePost tp doc).1.RepliesCount) ∧
    ((∀ s, (lookupField doc.Fields "bookmarksCount").bind FirestoreValue.IntegerValue = some s →
        s.data.head? ≠ some '-') → 0 ≤ (parsePost tp doc).1.BookmarksCount) := by
  have key : ∀ o : Option String,
      minInt ≤ (match o with | some s => (atoi s).1 | none => 0) ∧
      (match o with | some s => (atoi s).1 | none => 0) ≤ maxInt ∧
      ((∀ s, o = some s → s.data.head? ≠ some '-') →
        0 ≤ (match o with | some s => (atoi s).1 | none => 0)) := by
    intro o
    cases o with
    | none => unfold minInt maxInt; simp
    | some s =>
      have h := parseInt_bounds s.data
      exact ⟨h.1, h.2.1, fun hs => h.2.2 (hs s rfl)⟩
  rw [parsePost_RepliesCount, parsePost_BookmarksCount]
  have h1 := key ((lookupField doc.Fields "repliesCount").bind FirestoreValue.IntegerValue)
  have h2 := key ((lookupField doc.Fields "bookmarksCount").bind FirestoreValue.IntegerValue)
  exact ⟨h1.1, h1.2.1, h2.1, h2.2.1, h1.2.2, h2.2.2⟩

/-! ## Returning to the Feed -/

theorem Model.open_post_step (lib : Lib) (M : Model) (P : Post) (cfg : Config)
    (hS : M.state = AppState.StateFeed) (hC : M.config = some cfg) :
    Model.Update lib M (Msg.openPost P) =
      some ({ M with state := AppState.StatePostDetail,
                     postDetailModel := NewPostDetailModelWithPost M.projectID cfg.IDToken P },
        Cmd.batch Cmd.spinnerTick
          (Cmd.fetchPostAndReplies P P.ID (some (NewFirestoreClient M.projectID cfg.IDToken)))) := by
  simp only [Model.Update, Model.dispatch, hS, hC, FeedModel.Update]
  rfl

theorem Model.detail_step (lib : Lib) (M : Model) (msg : Msg)
    (hS : M.state = AppState.StatePostDetail) (hm : msg ≠ Msg.backToFeed) :
    ∃ M1 c, Model.Update lib M msg = some (M1, c) ∧ M1.state = AppState.StatePostDetail ∧
      M1.feedModel = M.feedModel ∧ M1.config = M.config := by
  cases M with
  | mk st lm fm pd cfg ak pid w h =>
    simp only at hS
    subst hS
    cases msg with
    | key s =>
      by_cases hq : s = "ctrl+c"
      · refine ⟨⟨AppState.StatePostDetail, lm, fm, pd, cfg, ak, pid, w, h⟩, Cmd.quit, ?_,
          rfl, rfl, rfl⟩
        simp only [Model.Update, hq, if_true]
      · refine ⟨⟨AppState.StatePostDetail, lm, fm, (PostDetailModel.Update lib pd (Msg.key s)).1,
          cfg, ak, pid, w, h⟩, (PostDetailModel.Update lib pd (Msg.key s)).2, ?_, rfl, rfl, rfl⟩
        simp only [Model.Update, hq, if_false, Model.dispatch]
    | backToFeed => exact absurd rfl hm
    | windowSize a b => exact ⟨_, _, rfl, rfl, rfl, rfl⟩
    | loginSuccess a b c d => exact ⟨_, _, rfl, rfl, rfl, rfl⟩
    | loginError e => exact ⟨_, _, rfl, rfl, rfl, rfl⟩
    | spinnerTick => exact ⟨_, _, rfl, rfl, rfl, rfl⟩
    | postsLoaded ps => exact ⟨_, _, rfl, rfl, rfl, rfl⟩
    | postsError e => exact ⟨_, _, rfl, rfl, rfl, rfl⟩
    | openPost p => exact ⟨_, _, rfl, rfl, rfl, rfl⟩
    | postDetailLoaded p r => exact ⟨_, _, rfl, rfl, rfl, rfl⟩
    | postDetailError e => exact ⟨_, _, rfl, rfl, rfl, rfl⟩
    | other t => exact ⟨_, _, rfl, rfl, rfl, rfl⟩

theorem Model.detail_run (lib : Lib) (msgs : List Msg) (hm : ∀ msg ∈ msgs, msg ≠ Msg.backToFeed) :
    ∀ M : Model, M.state = AppState.StatePostDetail →
      ∃ M1, Model.run lib M msgs = some M1 ∧ M1.state = AppState.StatePostDetail ∧
        M1.feedModel = M.feedModel := by
  induction msgs with
  | nil => intro M hS; exact ⟨M, rfl, hS, rfl⟩
  | cons msg rest ih =>
    intro M hS
    obtain ⟨M1, c, hU, hS1, hF1, _⟩ :=
      Model.detail_step lib M msg hS (hm msg (List.mem_cons_self _ _))
    obtain ⟨M2, hR, hS2, hF2⟩ := ih (fun x hx => hm x (List.mem_cons_of_mem _ hx)) M1 hS1
    refine ⟨M2, ?_, hS2, by rw [hF2, hF1]⟩
    simp only [Model.run, hU]
    exact hR

theorem Model.back_step (lib : Lib) (M : Model) (hS : M.state = AppState.StatePostDetail) :
    Model.Update lib M Msg.backToFeed = some ({ M with state := AppState.StateFeed }, Cmd.none) := by
  cases M with
  | mk st lm fm pd cfg ak pid w h =>
    simp only at hS
    subst hS
    rfl

theorem Model.run_append (lib : Lib) (xs ys : List Msg) :
    ∀ M M1 : Model, Model.run lib M xs = some M1 →
      Model.run lib M (xs ++ ys) = Model.run lib M1 ys := by
  induction xs with
  | nil => intro M M1 h; simp only [Model.run] at h; cases h; rfl
  | cons x rest ih =>
    intro M M1 h
    simp only [List.cons_append, Model.run] at h ⊢
    cases hU : Model.Update lib M x with
    | none => rw [hU] at h; cases h
    | some r =>
      rw [hU] at h
      simp only at h ⊢
      exact ih r.1 M1 h

/-- C19: when the top-level Model with PostDetail active handles BackToFeedMsg,
the active screen becomes Feed, nothing else changes and no command is
scheduled; every sequence of other messages handled while PostDetail is active
keeps PostDetail active and the Feed model untouched; so after opening a post
from a Feed (session config present), any such sequence and BackToFeedMsg, the
whole Feed model (posts, cursor, offset, loading flag, error and the rest) is
the one the Feed had when the post was opened. -/
theorem back_to_feed_restores_feed (lib : Lib) (M M0 : Model) (P : Post) (cfg : Config)
    (msgs : List Msg) (hS : M.state = AppState.StatePostDetail)
    (h0 : M0.state = AppState.StateFeed) (hc : M0.config = some cfg)
    (hm : ∀ msg ∈ msgs, msg ≠ Msg.backToFeed) :
    Model.Update lib M Msg.backToFeed = some ({ M with state := AppState.StateFeed }, Cmd.none) ∧
    (∃ M1, Model.run lib M msgs = some M1 ∧ M1.state = AppState.StatePostDetail ∧
      M1.feedModel = M.feedModel) ∧
    (∃ M1 M2, Model.run lib M0 (Msg.openPost P :: msgs) = some M1 ∧
      M1.state = AppState.StatePostDetail ∧
      Model.Update lib M1 Msg.backToFeed = some (M2, Cmd.none) ∧
      Model.run lib M0 ((Msg.openPost P :: msgs) ++ [Msg.backToFeed]) = some M2 ∧
      M2.state = AppState.StateFeed ∧
      M2.feedModel = M0.feedModel) := by
  refine ⟨Model.back_step lib M hS, Model.detail_run lib msgs hm M hS, ?_⟩
  have hopen := (Model.open_post_step lib M0 P cfg h0 hc)
  obtain ⟨M1, hR, hS1, hF1⟩ := Model.detail_run lib msgs hm _ (show
    ({ M0 with state := AppState.StatePostDetail,
               postDetailModel := NewPostDetailModelWithPost M0.projectID cfg.IDToken P }
      : Model).state = AppState.StatePostDetail from rfl)
  have hrun : Model.run lib M0 (Msg.openPost P :: msgs) = some M1 := by
    simp only [Model.run, hopen]
    exact hR
  refine ⟨M1, { M1 with state := AppState.StateFeed }, hrun, hS1, Model.back_step lib M1 hS1,
    ?_, rfl, hF1⟩
  rw [Model.run_append lib (Msg.openPost P :: msgs) [Msg.backToFeed] M0 M1 hrun]
  simp only [Model.run, Model.back_step lib M1 hS1]

/-- A Feed with a cached session opens a post, scrolls and resizes in the
detail screen, and comes back to the Feed model it left. -/
theorem back_to_feed_restores_feed_witness :
    ({ initialModel "key" "proj" (some ⟨"tok", "", "", "", ""⟩) with
        state := AppState.StatePostDetail } : Model).state = AppState.StatePostDetail ∧
    (initialModel "key" "proj" (some ⟨"tok", "", "", "", ""⟩)).state = AppState.StateFeed ∧
    (∀ msg ∈ [Msg.key "j", Msg.windowSize 80 20], msg ≠ Msg.backToFeed) ∧
    ∃ M1 M2,
      Model.run Lib.inert (initialModel "key" "proj" (some ⟨"tok", "", "", "", ""⟩))
        (Msg.openPost { Post.zero with ID := "abc123" } :: [Msg.key "j", Msg.windowSize 80 20])
        = some M1 ∧
      M1.state = AppState.StatePostDetail ∧
      Model.Update Lib.inert M1 Msg.backToFeed = some (M2, Cmd.none) ∧
      Model.run Lib.inert (initialModel "key" "proj" (some ⟨"tok", "", "", "", ""⟩))
        ((Msg.openPost { Post.zero with ID := "abc123" } :: [Msg.key "j", Msg.windowSize 80 20])
          ++ [Msg.backToFeed]) = some M2 ∧
      M2.state = AppState.StateFeed ∧
      M2.feedModel = (initialModel "key" "proj" (some ⟨"tok", "", "", "", ""⟩)).feedModel :=
  ⟨rfl, rfl, by decide,
   (back_to_feed_restores_feed Lib.inert
      { initialModel "key" "proj" (some ⟨"tok", "", "", "", ""⟩) with
        state := AppState.StatePostDetail }
      (initialModel "key" "proj" (some ⟨"tok", "", "", "", ""⟩))
      { Post.zero with ID := "abc123" } ⟨"tok", "", "", "", ""⟩
      [Msg.key "j", Msg.windowSize 80 20] rfl rfl rfl (by decide)).2.2⟩

/-! ## The index read by "enter" -/

theorem FeedModel.adjustScroll_posts (m : FeedModel) : (m.adjustScroll).posts = m.posts :=
  (m.adjustScroll_frame).1

theorem FeedModel.adjustScroll_cursor (m : FeedModel) : (m.adjustScroll).cursor = m.cursor :=
  (m.adjustScroll_frame).2.1

/-- Every message keeps the cursor of a non-empty Feed list inside the list. -/
theorem FeedModel.cursor_step (lib : Lib) (m : FeedModel) (msg : Msg)
    (h : 0 < m.posts.length → 0 ≤ m.cursor ∧ m.cursor < (m.posts.length : Int)) :
    0 < (FeedModel.Update lib m msg).1.posts.length →
      0 ≤ (FeedModel.Update lib m msg).1.cursor ∧
      (FeedModel.Update lib m msg).1.cursor
        < ((FeedModel.Update lib m msg).1.posts.length : Int) := by
  cases msg with
  | key s =>
    simp only [FeedModel.Update]
    split_ifs
    all_goals first
      | exact h
      | (simp only [FeedModel.adjustScroll_posts, FeedModel.adjustScroll_cursor]
         intro hp
         have := h hp
         omega)
  | windowSize w hh =>
    simp only [FeedModel.Update, FeedModel.adjustScroll_posts, FeedModel.adjustScroll_cursor]
    exact h
  | postsLoaded ps =>
    simp only [FeedModel.Update]
    intro hp
    omega
  | spinnerTick => exact h
  | postsError e => exact h
  | loginSuccess a b c d => exact h
  | loginError e => exact h
  | openPost p => exact h
  | postDetailLoaded p r => exact h
  | postDetailError e => exact h
  | backToFeed => exact h
  | other t => exact h

theorem FeedModel.cursor_run (lib : Lib) (msgs : List Msg) :
    ∀ m : FeedModel,
      (0 < m.posts.length → 0 ≤ m.cursor ∧ m.cursor < (m.posts.length : Int)) →
      (0 < (m.run lib msgs).posts.length →
        0 ≤ (m.run lib msgs).cursor ∧
        (m.run lib msgs).cursor < ((m.run lib msgs).posts.length : Int)) := by
  induction msgs with
  | nil => intro m h; exact h
  | cons msg rest ih =>
    intro m h
    exact ih _ (FeedModel.cursor_step lib m msg h)

/-- C20: in every FeedModel state reachable from NewFeedModel by any sequence
of messages handled by FeedModel.Update ("G" on an empty list followed by a
later PostsLoadedMsg included), whenever "enter" returns the command that builds
OpenPostMsg, the command captured the screen's list and cursor, the index it
reads is in bounds (0 <= cursor < len(posts)), and running it does not fail and
delivers OpenPostMsg with the post at the cursor row. -/
theorem feed_enter_reads_index_in_bounds (lib : Lib) (projectID idToken : String)
    (msgs : List Msg) (posts : List Post) (c : Int)
    (h : (FeedModel.Update lib ((NewFeedModel projectID idToken).run lib msgs)
        (Msg.key "enter")).2 = Cmd.openPost posts c) :
    posts = ((NewFeedModel projectID idToken).run lib msgs).posts ∧
    c = ((NewFeedModel projectID idToken).run lib msgs).cursor ∧
    0 ≤ c ∧ c < (posts.length : Int) ∧
    ∃ P, posts[c.toNat]? = some P ∧ runOpenPost posts c = some (Msg.openPost P) := by
  have hinv := FeedModel.cursor_run lib msgs (NewFeedModel projectID idToken)
    (fun h0 => absurd h0 (by simp [NewFeedModel]))
  generalize (NewFeedModel projectID idToken).run lib msgs = m at h hinv
  have hne1 : ¬ ("enter" = "ctrl+c" ∨ "enter" = "q") := by decide
  have hne2 : ¬ ("enter" = "j" ∨ "enter" = "down") := by decide
  have hne3 : ¬ ("enter" = "k" ∨ "enter" = "up") := by decide
  have hne4 : ¬ ("enter" = "g") := by decide
  have hne5 : ¬ ("enter" = "G") := by decide
  have hne6 : ¬ ("enter" = "r") := by decide
  have hU : FeedModel.Update lib m (Msg.key "enter") =
      if m.loading = true then (m, Cmd.none)
      else if m.posts.length > 0 ∧ m.cursor < (m.posts.length : Int) then
        (m, Cmd.openPost m.posts m.cursor)
      else (m, Cmd.none) := by
    simp only [FeedModel.Update, hne1, hne2, hne3, hne4, hne5, hne6, if_false, if_true]
  rw [hU] at h
  by_cases hl : m.loading = true
  · rw [if_pos hl] at h
    cases h
  · rw [if_neg hl] at h
    by_cases hc : m.posts.length > 0 ∧ m.cursor < (m.posts.length : Int)
    · rw [if_pos hc] at h
      have hp : m.posts = posts := by injection h
      have hcur : m.cursor = c := by injection h
      subst hp hcur
      have hb := hinv hc.1
      have hlt : m.cursor.toNat < m.posts.length := by omega
      refine ⟨rfl, rfl, hb.1, hb.2, m.posts[m.cursor.toNat], ?_, ?_⟩
      · exact List.getElem?_eq_getElem hlt
      · unfold runOpenPost
        rw [if_pos ⟨hb.1, hb.2⟩, List.getElem?_eq_getElem hlt]
    · rw [if_neg hc] at h
      cases h

/-- "G" on an empty list, then two posts arrive, "j": "enter" reads row 1 of the
two-element list. -/
theorem feed_enter_reads_index_in_bounds_witness :
    (FeedModel.Update Lib.inert ((NewFeedModel "proj" "tok").run Lib.inert
        [Msg.postsLoaded [], Msg.key "G",
         Msg.postsLoaded [Post.zero, { Post.zero with ID := "b" }], Msg.key "j"])
        (Msg.key "enter")).2 = Cmd.openPost [Post.zero, { Post.zero with ID := "b" }] 1 ∧
    runOpenPost [Post.zero, { Post.zero with ID := "b" }] 1
      = some (Msg.openPost { Post.zero with ID := "b" }) ∧
    (0 : Int) ≤ 1 ∧ (1 : Int) < (([Post.zero, { Post.zero with ID := "b" }] : List Post).length : Int) :=
  ⟨by decide, by decide,
   (feed_enter_reads_index_in_bounds Lib.inert "proj" "tok"
      [Msg.postsLoaded [], Msg.key "G",
       Msg.postsLoaded [Post.zero, { Post.zero with ID := "b" }], Msg.key "j"]
      [Post.zero, { Post.zero with ID := "b" }] 1 (by decide)).2.2.1,
   (feed_enter_reads_index_in_bounds Lib.inert "proj" "tok"
      [Msg.postsLoaded [], Msg.key "G",
       Msg.postsLoaded [Post.zero, { Post.zero with ID := "b" }], Msg.key "j"]
      [Post.zero, { Post.zero with ID := "b" }] 1 (by decide)).2.2.2.1⟩

end Cyberspace
